import Mathlib

/-!
Shallow embedding of the command-safety sandbox of the Pseudo-Developer
repository (`src/command_executor.py`), together with proofs about it.

Conventions of the embedding:
* Python strings are Lean `String`s; all character-level processing is done
  with structural recursion over `String.toList` so that every definition
  evaluates by kernel reduction.
* The functions of Python's `os.path` used by the code (`isabs`, `join`,
  `abspath`, `relpath`) are modelled for POSIX path semantics (separator
  `/`, no drive letters), which is `os.path`'s behaviour when the program
  runs on a POSIX system.  `os.getcwd()` is passed in explicitly as `cwd`.
* Python's `.lower()` is modelled on the ASCII range, which covers every
  command the classifier compares against.
* Fallible operations (`os.path.relpath`, `str.index`, the
  `unicode_escape` codec) return `Except String _`; `try/except` blocks
  become `match`es on that result, so "the function never raises" is
  reflected by a total Lean function of result type `Bool`/tuple.
* The filesystem is a write-shadowing association list `FS`; writes in it
  always succeed (OS-level I/O failures such as a full disk are outside
  the model).  The persistent PowerShell session is abstracted by an
  oracle `shell : String → String × String` producing the final
  (stdout, stderr) pair of the sentinel-framing read loop, and a `spawned`
  flag recording whether a session was started.
-/

/-! ## Python character and string primitives -/

/-- Characters Python's `str.split()` / `str.strip()` treat as whitespace
(ASCII subset). -/
def pyIsWs (c : Char) : Bool :=
  c = ' ' ∨ c = '\t' ∨ c = '\n' ∨ c = '\r' ∨ c = '\x0b' ∨ c = '\x0c'

/-- ASCII lowercasing of one character, as done by Python's `str.lower()`
on the ASCII range. -/
def pyToLowerChar (c : Char) : Char :=
  if c = 'A' then 'a' else if c = 'B' then 'b' else if c = 'C' then 'c'
  else if c = 'D' then 'd' else if c = 'E' then 'e' else if c = 'F' then 'f'
  else if c = 'G' then 'g' else if c = 'H' then 'h' else if c = 'I' then 'i'
  else if c = 'J' then 'j' else if c = 'K' then 'k' else if c = 'L' then 'l'
  else if c = 'M' then 'm' else if c = 'N' then 'n' else if c = 'O' then 'o'
  else if c = 'P' then 'p' else if c = 'Q' then 'q' else if c = 'R' then 'r'
  else if c = 'S' then 's' else if c = 'T' then 't' else if c = 'U' then 'u'
  else if c = 'V' then 'v' else if c = 'W' then 'w' else if c = 'X' then 'x'
  else if c = 'Y' then 'y' else if c = 'Z' then 'z' else c

/-- `command.lower()`. -/
def pyLower (s : String) : String := String.mk (s.toList.map pyToLowerChar)

/-- `s.startswith(pre)`. -/
def pyStartsWith (s pre : String) : Bool := pre.toList.isPrefixOf s.toList

/-- `s.endswith(suf)`. -/
def pyEndsWith (s suf : String) : Bool := suf.toList.isSuffixOf s.toList

/-- `sub in s` on lists of characters: `pat` occurs contiguously in `l`. -/
def listHasSub (pat : List Char) : List Char → Bool
  | [] => pat.isPrefixOf []
  | c :: t => pat.isPrefixOf (c :: t) || listHasSub pat t

/-- `sub in s` (Python substring containment). -/
def containsSub (s sub : String) : Bool := listHasSub sub.toList s.toList

/-- `ch in s` for a single character. -/
def containsChar (s : String) (ch : Char) : Bool := s.toList.contains ch

/-- Strip the characters of `cs` from both ends of `l`
(Python `str.strip(chars)`). -/
def stripCharsList (cs : List Char) (l : List Char) : List Char :=
  ((l.dropWhile (fun c => cs.contains c)).reverse.dropWhile
    (fun c => cs.contains c)).reverse

/-- `s.strip()` (whitespace on both ends). -/
def pyStrip (s : String) : String :=
  String.mk (((s.toList.dropWhile pyIsWs).reverse.dropWhile pyIsWs).reverse)

/-- `s.strip('"\'')` — strip double and single quotes from both ends. -/
def pyStripQuotes (s : String) : String :=
  String.mk (stripCharsList ['"', '\''] s.toList)

/-- `s[a:b]` for `0 ≤ a ≤ b` (character indices). -/
def pySlice (s : String) (a b : Nat) : String :=
  String.mk ((s.toList.drop a).take (b - a))

/-- `s[:n]`. -/
def pyTake (s : String) (n : Nat) : String := String.mk (s.toList.take n)

/-- `s[n:]`. -/
def pyDrop (s : String) (n : Nat) : String := String.mk (s.toList.drop n)

/-- `s[1:-1]` — drop one character at each end. -/
def pySlice1m1 (s : String) : String := String.mk ((s.toList.drop 1).dropLast)

/-- Index of the first occurrence of `pat` in the list, if any
(`str.find` / `str.index`). -/
def listIdxOfSub (pat : List Char) : List Char → Option Nat
  | [] => if pat.isPrefixOf [] then some 0 else none
  | c :: t =>
    if pat.isPrefixOf (c :: t) then some 0
    else (listIdxOfSub pat t).map (· + 1)

/-- Index of the last occurrence of `pat` in the list, if any
(`str.rfind` / `str.rindex`). -/
def listRIdxOfSub (pat : List Char) : List Char → Option Nat
  | [] => if pat.isPrefixOf [] then some 0 else none
  | c :: t =>
    match (listRIdxOfSub pat t).map (· + 1) with
    | some i => some i
    | none => if pat.isPrefixOf (c :: t) then some 0 else none

/-- `s.find(sub)`-style first index. -/
def idxOfSub (s sub : String) : Option Nat := listIdxOfSub sub.toList s.toList

/-- `s.rfind(sub)`-style last index. -/
def ridxOfSub (s sub : String) : Option Nat := listRIdxOfSub sub.toList s.toList

/-- Index of the first occurrence of a character (`s.index(ch)`). -/
def idxOfChar (s : String) (ch : Char) : Option Nat :=
  listIdxOfSub [ch] s.toList

/-- `s.split(sep, 1)`: `some (before, after)` when `sep` occurs, `none`
when the split would return the whole string as a single part. -/
def splitOnceSub (s sep : String) : Option (String × String) :=
  match idxOfSub s sep with
  | none => none
  | some i => some (pyTake s i, pyDrop s (i + sep.toList.length))

/-- `s.replace(pat, repl)` with an explicit fuel argument (the fuel is the
length of the list, which bounds the number of loop steps). -/
def listReplace (pat repl : List Char) : Nat → List Char → List Char
  | _, [] => []
  | 0, l => l
  | n + 1, c :: t =>
    if pat ≠ [] ∧ pat.isPrefixOf (c :: t) then
      repl ++ listReplace pat repl n ((c :: t).drop pat.length)
    else c :: listReplace pat repl n t

/-- `s.replace(pat, repl)`. -/
def pyReplace (s pat repl : String) : String :=
  String.mk (listReplace pat.toList repl.toList s.toList.length s.toList)

/-- Generic splitter: cut the character list at every character satisfying
`p`, dropping empty pieces.  `cur` is the (reversed) pending segment. -/
def splitByAux (p : Char → Bool) (cur : List Char) : List Char → List String
  | [] => if cur.isEmpty then [] else [String.mk cur.reverse]
  | c :: cs =>
    if p c then
      if cur.isEmpty then splitByAux p [] cs
      else String.mk cur.reverse :: splitByAux p [] cs
    else splitByAux p (c :: cur) cs

/-- `s.split()` — whitespace tokenization, no empty tokens. -/
def splitWs (s : String) : List String := splitByAux pyIsWs [] s.toList

/-- Split a path into its non-empty `/`-separated segments
(`[x for x in s.split('/') if x]`). -/
def splitSegs (s : String) : List String := splitByAux (fun c => c = '/') [] s.toList

/-- Split on a separator character, keeping empty pieces
(`s.split('\n')`). -/
def splitCharAux (sep : Char) (cur : List Char) : List Char → List String
  | [] => [String.mk cur.reverse]
  | c :: cs =>
    if c = sep then String.mk cur.reverse :: splitCharAux sep [] cs
    else splitCharAux sep (c :: cur) cs

/-- `s.split(sep)` for a one-character separator, keeping empty parts. -/
def splitChar (s : String) (sep : Char) : List String :=
  splitCharAux sep [] s.toList

/-- `sep.join(parts)` for a one-character separator. -/
def joinWith (sep : Char) : List String → String
  | [] => ""
  | [a] => a
  | a :: rest => a ++ String.mk [sep] ++ joinWith sep rest

/-! ## os.path model (POSIX semantics) -/

/-- `os.path.isabs(p)`. -/
def pyIsAbs (p : String) : Bool := pyStartsWith p "/"

/-- `os.path.join(a, b)` (posixpath, two arguments). -/
def pyJoin (a b : String) : String :=
  if pyIsAbs b then b
  else if a = "" ∨ pyEndsWith a "/" then a ++ b
  else a ++ "/" ++ b

/-- Normalize the segment list of an absolute path: drop `''` and `'.'`,
resolve `'..'` against the accumulated prefix (`posixpath.normpath` on an
absolute path). -/
def normAbs (segs : List String) : List String :=
  segs.foldl
    (fun acc s =>
      if s = "." ∨ s = "" then acc
      else if s = ".." then acc.dropLast
      else acc ++ [s])
    []

/-- Rebuild the normalized absolute path string from a path string
(`posixpath.normpath` for absolute inputs). -/
def normAbsStr (s : String) : String := "/" ++ joinWith '/' (normAbs (splitSegs s))

/-- `os.path.abspath(p)` = `normpath(join(cwd, p))`; `cwd` (the value of
`os.getcwd()`, an absolute path) is passed explicitly. -/
def pyAbspath (cwd p : String) : String := normAbsStr (pyJoin cwd p)

/-- Length of the common prefix of two segment lists
(`os.path.commonprefix` on split lists). -/
def commonPrefixLen : List String → List String → Nat
  | a :: as, b :: bs => if a = b then commonPrefixLen as bs + 1 else 0
  | _, _ => 0

/-- `os.path.relpath(path, start)` (posixpath).  Raises `ValueError` — here
`Except.error` — when `path` is empty; otherwise both arguments are made
absolute, split into segments, and the relative walk is rebuilt. -/
def pyRelpath (cwd path start : String) : Except String String :=
  if path = "" then .error "no path specified"
  else
    let start_list := splitSegs (pyAbspath cwd start)
    let path_list := splitSegs (pyAbspath cwd path)
    let i := commonPrefixLen start_list path_list
    let rel_list := List.replicate (start_list.length - i) ".." ++ path_list.drop i
    if rel_list = [] then .ok "." else .ok (joinWith '/' rel_list)

/-! ## The CommandExecutor data model -/

/-- The state of `CommandExecutor` relevant to safety decisions: the
configured project (root) directory, `None` when unset. -/
structure CommandExecutor where
  project_dir : Option String

/-- Filesystem model: write-shadowing association list from the raw path
string used by the code to the stored file content. -/
abbrev FS := List (String × String)

/-- Store `content` at `path` (newest entry shadows older ones). -/
def fsWrite (fs : FS) (path content : String) : FS := (path, content) :: fs

/-- Look up the current content of `path`. -/
def fsLookup (fs : FS) (path : String) : Option String :=
  (fs.find? (fun e => e.fst == path)).map Prod.snd

/-- System state threaded through `execute_command`: the filesystem and
whether a PowerShell session has been spawned. -/
structure SysState where
  fs : FS
  spawned : Bool

/-! ## is_path_in_project -/

/-- `CommandExecutor.is_path_in_project(path)`: `False` without a root;
block null bytes; resolve the candidate (relative paths are anchored at
the project directory); compute the path relative to the resolved root and
reject when it starts with `..` or the original path starts with `~`; any
resolution error is caught and turned into `False`. -/
def is_path_in_project (cwd : String) (self : CommandExecutor) (path : String) : Bool :=
  match self.project_dir with
  | none => false
  | some pd =>
    if containsChar path '\x00' then false
    else
      let abs_path :=
        if pyIsAbs path then pyAbspath cwd path
        else pyAbspath cwd (pyJoin pd path)
      let project_path := pyAbspath cwd pd
      match pyRelpath cwd abs_path project_path with
      | .error _ => false
      | .ok rel_path =>
        if pyStartsWith rel_path ".." ∨ pyStartsWith path "~" then false
        else true

/-- The relative-path computation performed inside `is_path_in_project`
for a configured root `pd` (the argument of the `rel_path.startswith('..')`
test), exposed for specification purposes. -/
def resolvedRel (cwd pd path : String) : Except String String :=
  pyRelpath cwd
    (if pyIsAbs path then pyAbspath cwd path else pyAbspath cwd (pyJoin pd path))
    (pyAbspath cwd pd)

/-! ## is_safe_command -/

/-- The denylisted destructive first tokens (`dangerous_commands`). -/
def dangerous_commands : List String := ["format"]

/-- The whitelist of verbs with their expected positional argument count
(`safe_commands`). -/
def safe_commands : List (String × Nat) :=
  [("dir", 1), ("type", 1), ("move", 2), ("ren", 2), ("rename", 2),
   ("del", 1), ("rm", 1), ("rmdir", 1), ("rd", 1)]

/-- Dictionary lookup `safe_commands[verb]`. -/
def lookupVerb (v : String) : Option Nat :=
  (safe_commands.find? (fun e => e.fst == v)).map Prod.snd

/-- The regex search `re.search(r'-Path\s+([^\s]+)', command)`: at the
current position, try to match `-Path`, one or more whitespace characters,
then capture the following maximal non-whitespace run. -/
def matchPathAt (l : List Char) : Option (List Char) :=
  if "-Path".toList.isPrefixOf l then
    let rest := l.drop 5
    let ws := rest.takeWhile pyIsWs
    if ws.isEmpty then none
    else
      let cap := (rest.drop ws.length).takeWhile (fun c => ¬ pyIsWs c)
      if cap.isEmpty then none else some cap
  else none

/-- Scan for the first match of `-Path\s+([^\s]+)` and return the captured
group. -/
def searchPathFlag : List Char → Option String
  | [] => none
  | c :: t =>
    match matchPathAt (c :: t) with
    | some cap => some (String.mk cap)
    | none => searchPathFlag t

/-- `re.search(r'-Path\s+([^\s]+)', command)` returning the capture. -/
def searchPath (command : String) : Option String := searchPathFlag command.toList

/-- The positional-argument loop of the whitelist branch:
`for i in range(1, expected_args + 1): if i < len(cmd_parts): validate`. -/
def checkPathArgs (cwd : String) (self : CommandExecutor)
    (cmd_parts : List String) (expected : Nat) : Bool :=
  (List.range' 1 expected).all fun i =>
    match cmd_parts.get? i with
    | some t => is_path_in_project cwd self (pyStripQuotes t)
    | none => true

/-- The fallback scan: every whitespace token containing a colon is treated
as a Windows absolute path and must pass the confinement check. -/
def colonScan (cwd : String) (self : CommandExecutor) (command : String) : Bool :=
  (splitWs command).all fun part =>
    if containsChar part ':' then is_path_in_project cwd self (pyStripQuotes part)
    else true

/-- `CommandExecutor.is_safe_command(command)`: fail without a root;
tokenize the lowercased command; denylist `format`; reject `..`/`~`
anywhere in the raw command; validate whitelisted verbs' positional
arguments; for `add-content`/`set-content`/`new-item` validate the `-Path`
flag value when present; otherwise scan colon-containing tokens. -/
def is_safe_command (cwd : String) (self : CommandExecutor) (command : String) : Bool :=
  match self.project_dir with
  | none => false
  | some _ =>
    match splitWs (pyLower command) with
    | [] => false
    | verb :: rest =>
      if dangerous_commands.contains verb then false
      else if containsSub command ".." ∨ containsSub command "~" then false
      else
        match lookupVerb verb with
        | some expected_args =>
          if (verb :: rest).length = 1 ∧ verb = "dir" then true
          else if (verb :: rest).length < expected_args + 1 then false
          else checkPathArgs cwd self (verb :: rest) expected_args
        | none =>
          if verb = "add-content" ∨ verb = "set-content" ∨ verb = "new-item" then
            match searchPath command with
            | some p => is_path_in_project cwd self (pyStripQuotes p)
            | none => colonScan cwd self command
          else colonScan cwd self command

/-! ## Safe file operations -/

/-- `CHUNK_SIZE` — 8KB chunks for file operations. -/
def CHUNK_SIZE : Nat := 8192

/-- Concatenation of the successive `size`-character chunks of `l`, as
produced by the chunked write/read loops.  The fuel is the length of the
list, which bounds the number of loop iterations whenever `0 < size`. -/
def chunkedJoin (size : Nat) : Nat → List Char → List Char
  | _, [] => []
  | 0, _ => []
  | fuel + 1, c :: t => (c :: t).take size ++ chunkedJoin size fuel ((c :: t).drop size)

/-- The file content produced by the chunked write loop of
`safe_write_file` (`while start < len(content): f.write(chunk)`). -/
def writeChunked (content : String) : String :=
  String.mk (chunkedJoin CHUNK_SIZE content.toList.length content.toList)

/-- The string produced by the chunked read loop of `safe_read_file`
(`''.join(content)` over `f.read(CHUNK_SIZE)` chunks). -/
def readChunked (stored : String) : String :=
  String.mk (chunkedJoin CHUNK_SIZE stored.toList.length stored.toList)

/-- `CommandExecutor.safe_write_file(filepath, content)`: validate the
path, create directories (a no-op in the flat filesystem model), write the
content in chunks.  Returns `((success, error_message), new_fs)`. -/
def safe_write_file (cwd : String) (self : CommandExecutor) (fs : FS)
    (filepath content : String) : (Bool × Option String) × FS :=
  if is_path_in_project cwd self filepath then
    ((true, none), fsWrite fs filepath (writeChunked content))
  else ((false, some "File path is outside project directory"), fs)

/-- `CommandExecutor.safe_read_file(filepath)`: validate the path, read in
chunks, concatenate.  A missing file (Python `FileNotFoundError`, caught
and stringified) yields `(None, descriptive message)`. -/
def safe_read_file (cwd : String) (self : CommandExecutor) (fs : FS)
    (filepath : String) : Option String × Option String :=
  if is_path_in_project cwd self filepath then
    match fsLookup fs filepath with
    | some stored => (some (readChunked stored), none)
    | none => (none, some ("[Errno 2] No such file or directory: '" ++ filepath ++ "'"))
  else (none, some "File path is outside project directory")

/-- `CommandExecutor.safe_copy_file(src, dst)`: both endpoints must pass
the confinement check; `shutil.copy2` is modelled as copying the stored
content (a missing source is the caught-and-stringified error case). -/
def safe_copy_file (cwd : String) (self : CommandExecutor) (fs : FS)
    (src dst : String) : (Bool × Option String) × FS :=
  if is_path_in_project cwd self src ∧ is_path_in_project cwd self dst then
    match fsLookup fs src with
    | some v => ((true, none), fsWrite fs dst v)
    | none => ((false, some ("[Errno 2] No such file or directory: '" ++ src ++ "'")), fs)
  else ((false, some "Source or destination path is outside project directory"), fs)

/-! ## Content-command interpreters -/

/-- One-character escape decoding table of Python's `unicode_escape`
codec. -/
def escMap (c : Char) : Option Char :=
  if c = 'n' then some '\n' else if c = 't' then some '\t'
  else if c = 'r' then some '\r' else if c = '\\' then some '\\'
  else if c = '\'' then some '\'' else if c = '"' then some '"'
  else if c = '0' then some '\x00' else if c = 'a' then some '\x07'
  else if c = 'b' then some '\x08' else if c = 'f' then some '\x0c'
  else if c = 'v' then some '\x0b' else none

/-- Decode backslash escape sequences (the single-character escapes of
Python's `unicode_escape` codec; unknown escapes are kept verbatim, a
trailing backslash raises, modelled as `Except.error`). -/
def unicodeEscapeList : List Char → Except String (List Char)
  | [] => .ok []
  | ['\\'] => .error "Trailing backslash in string"
  | '\\' :: c :: rest =>
    match escMap c with
    | some e => (unicodeEscapeList rest).map (fun t => e :: t)
    | none => (unicodeEscapeList rest).map (fun t => '\\' :: c :: t)
  | c :: rest => (unicodeEscapeList rest).map (fun t => c :: t)

/-- `content.encode('utf-8').decode('unicode_escape')` (ASCII-faithful
model). -/
def pyUnicodeEscape (s : String) : Except String String :=
  (unicodeEscapeList s.toList).map String.mk

/-- Leading-whitespace width of a line (`len(line) - len(line.lstrip())`). -/
def lineIndent (line : String) : Nat := (line.toList.takeWhile pyIsWs).length

/-- Minimum indentation over the non-blank lines (`min_indent` stays
`float('inf')` — here `none` — when every line is blank). -/
def minIndent : List String → Option Nat
  | [] => none
  | line :: rest =>
    let r := minIndent rest
    if pyStrip line = "" then r
    else
      match r with
      | none => some (lineIndent line)
      | some m => some (min (lineIndent line) m)

/-- The common-indentation removal applied to Python-file content:
split into lines, compute the minimum indentation of non-blank lines, and
drop that many characters from every non-blank line. -/
def pyDedent (content : String) : String :=
  let lines := splitChar content '\n'
  match minIndent lines with
  | none => content
  | some m =>
    joinWith '\n'
      (lines.map fun line => if pyStrip line ≠ "" then pyDrop line m else line)

/-- Content extraction of `handle_set_content` (no escape decoding):
here-string, then triple quotes, then double quotes, then single quotes,
then plain text. -/
def extractValueContentSC (value : String) : String :=
  if containsSub value "@\"" ∧ containsSub value "\"@" then
    let hs := (idxOfSub value "@\"").getD 0 + 2
    let he := (ridxOfSub value "\"@").getD 0
    if hs < he then pySlice value hs he else ""
  else if containsSub value "\"\"\"" then
    let ts := (idxOfSub value "\"\"\"").getD 0 + 3
    let te := (ridxOfSub value "\"\"\"").getD 0
    if ts < te then pySlice value ts te else ""
  else if pyStartsWith value "\"" ∧ pyEndsWith value "\"" then pySlice1m1 value
  else if pyStartsWith value "'" ∧ pyEndsWith value "'" then pySlice1m1 value
  else value

/-- Content extraction of `handle_content_command`: same priority chain,
but double-quoted, single-quoted and backslash-n-containing plain values
are passed through the `unicode_escape` decoding. -/
def extractValueContentCC (value : String) : Except String String :=
  if containsSub value "@\"" ∧ containsSub value "\"@" then
    let hs := (idxOfSub value "@\"").getD 0 + 2
    let he := (ridxOfSub value "\"@").getD 0
    .ok (if hs < he then pySlice value hs he else "")
  else if containsSub value "\"\"\"" then
    let ts := (idxOfSub value "\"\"\"").getD 0 + 3
    let te := (ridxOfSub value "\"\"\"").getD 0
    .ok (if ts < te then pySlice value ts te else "")
  else if pyStartsWith value "\"" ∧ pyEndsWith value "\"" then
    pyUnicodeEscape (pySlice1m1 value)
  else if pyStartsWith value "'" ∧ pyEndsWith value "'" then
    pyUnicodeEscape (pySlice1m1 value)
  else if containsSub value "\\n" then pyUnicodeEscape value
  else .ok value

/-- Python-file post-processing of `handle_set_content`: dedent, then
(when the content still holds a triple quote) restore escaped triple
quotes. -/
def pyFileProcessSC (filepath content : String) : String :=
  if pyEndsWith (pyLower filepath) ".py" then
    let c := pyDedent content
    if containsSub c "\"\"\"" then pyReplace c "\\\"\\\"\\\"" "\"\"\"" else c
  else content

/-- Python-file post-processing of `handle_content_command`: dedent, then
unconditionally restore escaped triple quotes. -/
def pyFileProcessCC (filepath content : String) : String :=
  if pyEndsWith (pyLower filepath) ".py" then
    pyReplace (pyDedent content) "\\\"\\\"\\\"" "\"\"\""
  else content

/-- `CommandExecutor.handle_set_content(command)`: extract the `-Path`
value (strip quotes), split on `-Value`, extract the literal content by
quoting style, post-process `.py` targets, delegate to `safe_write_file`.
Returns `((success, output, error), new_fs)`. -/
def handle_set_content (cwd : String) (self : CommandExecutor) (fs : FS)
    (command : String) : (Bool × Option String × Option String) × FS :=
  match searchPath command with
  | none => ((false, none, some "Invalid Set-Content command format: missing -Path"), fs)
  | some g =>
    let filepath := pyStripQuotes g
    match splitOnceSub command "-Value" with
    | none => ((false, none, some "Invalid Set-Content command format: missing -Value"), fs)
    | some pr =>
      let value := pyStrip pr.2
      let content := pyFileProcessSC filepath (extractValueContentSC value)
      let w := safe_write_file cwd self fs filepath content
      if w.1.1 then ((true, some "File written successfully", none), w.2)
      else ((false, none, some ("Failed to write file: " ++ w.1.2.getD "")), w.2)

/-- `CommandExecutor.handle_content_command(command)`: as
`handle_set_content` but with escape decoding; a decoding failure is the
caught-exception branch (`"Error handling content command: ..."`). -/
def handle_content_command (cwd : String) (self : CommandExecutor) (fs : FS)
    (command : String) : (Bool × Option String × Option String) × FS :=
  match searchPath command with
  | none => ((false, none, some "Invalid command format: missing -Path"), fs)
  | some g =>
    let filepath := pyStripQuotes g
    match splitOnceSub command "-Value" with
    | none => ((false, none, some "Invalid command format: missing -Value"), fs)
    | some pr =>
      let value := pyStrip pr.2
      match extractValueContentCC value with
      | .error e => ((false, none, some ("Error handling content command: " ++ e)), fs)
      | .ok c0 =>
        let content := pyFileProcessCC filepath c0
        let w := safe_write_file cwd self fs filepath content
        if w.1.1 then ((true, some "File written successfully", none), w.2)
        else ((false, none, some ("Failed to write file: " ++ w.1.2.getD "")), w.2)

/-! ## Dispatch / execution -/

/-- The subprocess branch of `execute_command`: ensure a PowerShell
session (modelled by the `spawned` flag), forward the raw command, and
return the sentinel-framed (stdout, stderr) given by the `shell` oracle
with `is_safe = True`. -/
def shellRun (shell : String → String × String) (st : SysState)
    (command : String) :
    Except String ((Option String × Option String × Bool) × SysState) :=
  .ok ((some (shell command).1, some (shell command).2, true), ⟨st.fs, true⟩)

/-- `CommandExecutor.execute_command(command)`: reject unsafe commands
with `(None, None, False)`; delegate `Set-Content`/`Add-Content` to
`handle_content_command`; interpret the `>` redirection forms
(here-string and `echo`) as direct writes; otherwise forward to the
PowerShell session.  The result is `((stdout, stderr, is_safe), state)`;
`Except.error` marks an uncaught Python exception (`str.rindex` /
`str.index` failing in the redirection branch). -/
def execute_command (cwd : String) (shell : String → String × String)
    (self : CommandExecutor) (st : SysState) (command : String) :
    Except String ((Option String × Option String × Bool) × SysState) :=
  if is_safe_command cwd self command = false then .ok ((none, none, false), st)
  else if pyStartsWith command "Set-Content" ∨ pyStartsWith command "Add-Content" then
    let r := handle_content_command cwd self st.fs command
    .ok ((r.1.2.1, r.1.2.2, r.1.1), ⟨r.2, st.spawned⟩)
  else if containsChar command '>' then
    match idxOfChar command '>' with
    | none => .error "substring not found"
    | some write_idx =>
      let content := pyStrip (pyTake command write_idx)
      let fp0 := pyStrip (pyDrop command (write_idx + 1))
      let filepath :=
        if (pyStartsWith fp0 "\"" ∧ pyEndsWith fp0 "\"") ∨
           (pyStartsWith fp0 "'" ∧ pyEndsWith fp0 "'") then pySlice1m1 fp0
        else fp0
      if pyStartsWith content "$" ∧ containsSub content "@'" then
        match ridxOfSub content "'@" with
        | none => .error "substring not found"
        | some em =>
          let sm := (idxOfSub content "@'").getD 0 + 2
          if sm < em then
            let c2 := pyStrip (pySlice content sm em)
            let w := safe_write_file cwd self st.fs filepath c2
            .ok ((if w.1.1 then some "File written successfully" else none,
                  if w.1.1 then none else w.1.2, w.1.1), ⟨w.2, st.spawned⟩)
          else shellRun shell st command
      else if pyStartsWith (pyLower content) "echo " then
        let c1 := pyStrip (pyDrop content 5)
        let c2 :=
          if (pyStartsWith c1 "\"" ∧ pyEndsWith c1 "\"") ∨
             (pyStartsWith c1 "'" ∧ pyEndsWith c1 "'") then pySlice1m1 c1
          else c1
        let w := safe_write_file cwd self st.fs filepath c2
        .ok ((if w.1.1 then some "File written successfully" else none,
              if w.1.1 then none else w.1.2, w.1.1), ⟨w.2, st.spawned⟩)
      else shellRun shell st command
  else shellRun shell st command

/-- A command object of the model-response contract:
`{command: ..., description: ...}` consumed with `dict.get` defaults. -/
structure CmdObj where
  command : Option String
  description : Option String

/-- One entry of the list returned by `execute_commands`. -/
structure ResultDict where
  command : String
  description : String
  stdout : Option String
  stderr : Option String
  is_safe : Bool
deriving DecidableEq, Repr

/-- `CommandExecutor.execute_commands(command_list)`: iterate
sequentially, skip blank commands, collect one `ResultDict` per executed
command.  An uncaught exception in `execute_command` propagates
(`Except.error`) as it would abort the Python loop. -/
def execute_commands (cwd : String) (shell : String → String × String)
    (self : CommandExecutor) :
    SysState → List CmdObj → Except String (List ResultDict × SysState)
  | st, [] => .ok ([], st)
  | st, cobj :: rest =>
    let command := pyStrip (cobj.command.getD "")
    let description := cobj.description.getD "No description provided"
    if command = "" then execute_commands cwd shell self st rest
    else
      match execute_command cwd shell self st command with
      | .error e => .error e
      | .ok (r, st') =>
        match execute_commands cwd shell self st' rest with
        | .error e => .error e
        | .ok (rs, st'') =>
          .ok (⟨command, description, r.1, r.2.1, r.2.2⟩ :: rs, st'')

/-! ## Specification-side predicates -/

/-- A path is lexically inside the root: the normalized segments of the
resolved root are a prefix of the normalized segments of the resolved
candidate, relative candidates being anchored at the root exactly as
`is_path_in_project` resolves them. -/
def lexInside (cwd root p : String) : Bool :=
  (splitSegs (pyAbspath cwd root)).isPrefixOf
    (splitSegs (if pyIsAbs p then pyAbspath cwd p else pyAbspath cwd (pyJoin root p)))

/-! ## Basic bridge lemmas -/

/-- `is_path_in_project` with a configured root, re-expressed through
`resolvedRel` (definitional). -/
theorem is_path_in_project_some (cwd pd p : String) :
    is_path_in_project cwd ⟨some pd⟩ p =
      (if containsChar p '\x00' then false
       else
         match resolvedRel cwd pd p with
         | .error _ => false
         | .ok rel_path =>
           if pyStartsWith rel_path ".." ∨ pyStartsWith p "~" then false
           else true) := rfl

/-- A verb found in the whitelist is not the denylisted `format`. -/
theorem lookupVerb_ne_format {v : String} {n : Nat}
    (h : lookupVerb v = some n) : v ≠ "format" := by
  intro he
  subst he
  simp [lookupVerb, safe_commands, List.find?] at h

/-! ## C1 — is_path_in_project fails closed -/

/-- C1: `is_path_in_project` returns `false` whenever the computed
relative resolution starts with `..`, whenever the path contains a null
byte, whenever the path begins with `~`, and whenever no root directory is
configured; a resolution error (the caught `ValueError`/`OSError` branch)
also yields `false`.  Together with the totality of the Lean function this
captures that the checker never raises to its caller. -/
theorem is_path_in_project_fails_closed :
    (∀ cwd pd p r, resolvedRel cwd pd p = .ok r → pyStartsWith r ".." = true →
        is_path_in_project cwd ⟨some pd⟩ p = false) ∧
    (∀ cwd (self : CommandExecutor) p, containsChar p '\x00' = true →
        is_path_in_project cwd self p = false) ∧
    (∀ cwd (self : CommandExecutor) p, pyStartsWith p "~" = true →
        is_path_in_project cwd self p = false) ∧
    (∀ cwd p, is_path_in_project cwd ⟨none⟩ p = false) ∧
    (∀ cwd pd p e, resolvedRel cwd pd p = .error e →
        is_path_in_project cwd ⟨some pd⟩ p = false) := by
  refine ⟨?_, ?_, ?_, ?_, ?_⟩
  · intro cwd pd p r hres hdd
    rw [is_path_in_project_some]
    cases hnull : containsChar p '\x00' with
    | true => simp [hnull]
    | false => simp [hnull, hres, hdd]
  · intro cwd self p hnull
    obtain ⟨pd?⟩ := self
    cases pd? with
    | none => rfl
    | some pd => rw [is_path_in_project_some]; simp [hnull]
  · intro cwd self p htilde
    obtain ⟨pd?⟩ := self
    cases pd? with
    | none => rfl
    | some pd =>
      rw [is_path_in_project_some]
      cases hnull : containsChar p '\x00' with
      | true => simp [hnull]
      | false =>
        cases hres : resolvedRel cwd pd p with
        | error e => simp [hnull, hres]
        | ok r => simp [hnull, hres, htilde]
  · intro cwd p; rfl
  · intro cwd pd p e hres
    rw [is_path_in_project_some]
    cases hnull : containsChar p '\x00' with
    | true => simp [hnull]
    | false => simp [hnull, hres]

/-- Witness for C1: concrete escaping, null-byte, tilde and unset-root
inputs, each discharged through `is_path_in_project_fails_closed`. -/
theorem is_path_in_project_fails_closed_witness :
    is_path_in_project "/cwd" ⟨some "/proj"⟩ "../x" = false ∧
    is_path_in_project "/cwd" ⟨some "/proj"⟩ (String.mk ['a', '\x00', 'b']) = false ∧
    is_path_in_project "/cwd" ⟨some "/proj"⟩ "~home/f" = false ∧
    is_path_in_project "/cwd" ⟨none⟩ "sub/f" = false :=
  ⟨is_path_in_project_fails_closed.1 "/cwd" "/proj" "../x" "../x" rfl rfl,
   is_path_in_project_fails_closed.2.1 "/cwd" ⟨some "/proj"⟩ _ rfl,
   is_path_in_project_fails_closed.2.2.1 "/cwd" ⟨some "/proj"⟩ "~home/f" rfl,
   is_path_in_project_fails_closed.2.2.2.1 "/cwd" "sub/f"⟩

/-! ## C4 — format denylisted, dir verdicts -/

/-- C4: `is_safe_command "format C:"` is `false` with or without a
configured root (the first token `format` is denylisted, and without a
root every command is rejected); `is_safe_command "dir"` is `true`
whenever a root is configured and `false` when it is not. -/
theorem is_safe_command_format_dir :
    (∀ cwd pd, is_safe_command cwd ⟨some pd⟩ "format C:" = false) ∧
    (∀ cwd, is_safe_command cwd ⟨none⟩ "format C:" = false) ∧
    (∀ cwd pd, is_safe_command cwd ⟨some pd⟩ "dir" = true) ∧
    (∀ cwd, is_safe_command cwd ⟨none⟩ "dir" = false) :=
  ⟨fun _ _ => rfl, fun _ => rfl, fun _ _ => rfl, fun _ => rfl⟩

/-- Witness for C4 at a concrete root. -/
theorem is_safe_command_format_dir_witness :
    is_safe_command "/cwd" ⟨some "/proj"⟩ "format C:" = false ∧
    is_safe_command "/cwd" ⟨some "/proj"⟩ "dir" = true :=
  ⟨is_safe_command_format_dir.1 "/cwd" "/proj",
   is_safe_command_format_dir.2.2.1 "/cwd" "/proj"⟩

/-! ## C3 — the whole command is lowercased, not only the verb -/

/-- C3 counterexample: with root `/Proj`, the command `del /Proj/file`
names exactly one positional path argument, `/Proj/file`, which in its
original character case passes the confinement check; the command is
nevertheless rejected, because the classifier validates the lowercased
copy `/proj/file`, which fails.  So the validated path arguments are not
the original-case tokens. -/
theorem is_safe_command_lowercased_args_cex :
    is_safe_command "/cwd" ⟨some "/Proj"⟩ "del /Proj/file" = false ∧
    is_path_in_project "/cwd" ⟨some "/Proj"⟩ "/Proj/file" = true ∧
    is_path_in_project "/cwd" ⟨some "/Proj"⟩ "/proj/file" = false :=
  ⟨rfl, rfl, rfl⟩

/-! ## C5 — a file name merely starting with dots is also rejected -/

/-- C5 counterexample: `..f` (a legal file name inside the project, no
`..` path segment, no `~`, no null byte, lexically inside the root once
anchored there) is rejected by `is_path_in_project`, because the code
tests `rel_path.startswith('..')`, which also fires on ordinary names
that merely begin with two dots. -/
theorem is_path_in_project_dotdot_prefix_cex :
    lexInside "/cwd" "/proj" "..f" = true ∧
    (splitSegs "..f").contains ".." = false ∧
    pyStartsWith "..f" "~" = false ∧
    containsChar "..f" '~' = false ∧
    containsChar "..f" '\x00' = false ∧
    is_path_in_project "/cwd" ⟨some "/proj"⟩ "..f" = false :=
  ⟨rfl, rfl, rfl, rfl, rfl, rfl⟩

/-! ## C10 — only the declared positional arguments are validated -/

/-- C10: for a command whose (lowercased) first token is a whitelisted
verb with declared argument count `n`, once the raw command contains no
`..`/`~`, the token count suffices, and the FIRST `n` argument tokens pass
the confinement check, the command is classified safe — no hypothesis
constrains any later token, so trailing tokens (including colon-containing
absolute paths outside the root) are never passed to the confinement
check. -/
theorem is_safe_command_checks_only_declared_args
    (cwd pd c v : String) (args : List String) (n : Nat)
    (htok : splitWs (pyLower c) = v :: args)
    (hverb : lookupVerb v = some n)
    (hdd : containsSub c ".." = false) (htl : containsSub c "~" = false)
    (hlen : n + 1 ≤ (v :: args).length)
    (hargs : ∀ i ∈ List.range' 1 n,
      (((v :: args).get? i).all fun t =>
        is_path_in_project cwd ⟨some pd⟩ (pyStripQuotes t)) = true) :
    is_safe_command cwd ⟨some pd⟩ c = true := by
  have hne : v ≠ "format" := lookupVerb_ne_format hverb
  unfold is_safe_command
  rw [htok]
  simp only [dangerous_commands, List.contains_cons, List.contains_nil,
    Bool.or_false]
  rw [show (v == "format") = false by simp [hne]]
  simp only [Bool.false_eq_true, if_false, hdd, htl, or_self, hverb]
  by_cases hdir : (v :: args).length = 1 ∧ v = "dir"
  · rw [if_pos hdir]
  · rw [if_neg hdir, if_neg (Nat.not_lt.mpr hlen)]
    simp only [checkPathArgs, List.all_eq_true]
    intro i hi
    have := hargs i hi
    cases hg : (v :: args).get? i with
    | none => simp
    | some t => rw [hg] at this; simpa using this

/-- Witness for C10: `del a.txt /other:x` is classified safe although its
trailing token is a colon-containing path that fails the confinement
check — the token is simply never examined. -/
theorem is_safe_command_checks_only_declared_args_witness :
    is_safe_command "/cwd" ⟨some "/proj"⟩ "del a.txt /other:x" = true ∧
    is_path_in_project "/cwd" ⟨some "/proj"⟩ "/other:x" = false ∧
    containsChar "/other:x" ':' = true :=
  ⟨is_safe_command_checks_only_declared_args "/cwd" "/proj" "del a.txt /other:x"
    "del" ["a.txt", "/other:x"] 1 rfl rfl rfl rfl (by decide) (by decide),
   rfl, rfl⟩

/-! ## C2 — rejection and content-command delegation in execute_command -/

/-- Helper: an unsafe command is rejected with `(None, None, False)` and
the state — including the `spawned` flag — is untouched. -/
theorem execute_command_unsafe_eq (cwd : String)
    (shell : String → String × String) (self : CommandExecutor)
    (st : SysState) (c : String) (h : is_safe_command cwd self c = false) :
    execute_command cwd shell self st c = .ok ((none, none, false), st) := by
  simp [execute_command, h]

/-- Helper: a safe `Set-Content`/`Add-Content` command is delegated to
`handle_content_command` and its `(success, output, error)` is returned as
`(stdout, stderr, is_safe)`. -/
theorem execute_command_content_eq (cwd : String)
    (shell : String → String × String) (self : CommandExecutor)
    (st : SysState) (c : String) (h : is_safe_command cwd self c = true)
    (hsc : pyStartsWith c "Set-Content" = true ∨ pyStartsWith c "Add-Content" = true) :
    execute_command cwd shell self st c =
      .ok (((handle_content_command cwd self st.fs c).1.2.1,
            (handle_content_command cwd self st.fs c).1.2.2,
            (handle_content_command cwd self st.fs c).1.1),
           ⟨(handle_content_command cwd self st.fs c).2, st.spawned⟩) := by
  rcases hsc with h1 | h1 <;> simp [execute_command, h, h1]

/-- Helper: when the `-Path`/`-Value` parse and the content extraction
succeed and the extracted path passes the confinement check — i.e. the
write is attempted — `handle_content_command` performs the write and
reports success. -/
theorem handle_content_command_write_eq (cwd : String)
    (self : CommandExecutor) (fs : FS) (c g : String)
    (pr : String × String) (v : String)
    (hg : searchPath c = some g)
    (hpr : splitOnceSub c "-Value" = some pr)
    (hex : extractValueContentCC (pyStrip pr.2) = .ok v)
    (hip : is_path_in_project cwd self (pyStripQuotes g) = true) :
    handle_content_command cwd self fs c =
      ((true, some "File written successfully", none),
       fsWrite fs (pyStripQuotes g)
         (writeChunked (pyFileProcessCC (pyStripQuotes g) v))) := by
  unfold handle_content_command
  simp only [hg, hpr, hex, safe_write_file, hip, if_pos]

/-- C2: a command rejected by the safety classifier makes
`execute_command` return `(None, None, False)` at once, leaving the state
(hence the `spawned` flag — no shell process) untouched; a safe command
beginning with `Set-Content`/`Add-Content` is delegated to
`handle_content_command`, whose `(success, output, error)` becomes
`(stdout, stderr, is_safe)`; and whenever that interpreter actually
attempts the write (parse and extraction succeed, extracted path inside
the root), the returned `is_safe` component is `true`. -/
theorem execute_command_reject_and_content :
    (∀ cwd shell (self : CommandExecutor) (st : SysState) c,
        is_safe_command cwd self c = false →
        execute_command cwd shell self st c = .ok ((none, none, false), st)) ∧
    (∀ cwd shell (self : CommandExecutor) (st : SysState) c,
        is_safe_command cwd self c = true →
        pyStartsWith c "Set-Content" = true ∨ pyStartsWith c "Add-Content" = true →
        execute_command cwd shell self st c =
          .ok (((handle_content_command cwd self st.fs c).1.2.1,
                (handle_content_command cwd self st.fs c).1.2.2,
                (handle_content_command cwd self st.fs c).1.1),
               ⟨(handle_content_command cwd self st.fs c).2, st.spawned⟩)) ∧
    (∀ cwd shell (self : CommandExecutor) (st : SysState) c g
        (pr : String × String) v,
        is_safe_command cwd self c = true →
        (pyStartsWith c "Set-Content" = true ∨ pyStartsWith c "Add-Content" = true) →
        searchPath c = some g →
        splitOnceSub c "-Value" = some pr →
        extractValueContentCC (pyStrip pr.2) = .ok v →
        is_path_in_project cwd self (pyStripQuotes g) = true →
        execute_command cwd shell self st c =
          .ok ((some "File written successfully", none, true),
               ⟨fsWrite st.fs (pyStripQuotes g)
                  (writeChunked (pyFileProcessCC (pyStripQuotes g) v)),
                st.spawned⟩)) := by
  refine ⟨execute_command_unsafe_eq, execute_command_content_eq, ?_⟩
  intro cwd shell self st c g pr v h hsc hg hpr hex hip
  rw [execute_command_content_eq cwd shell self st c h hsc,
      handle_content_command_write_eq cwd self st.fs c g pr v hg hpr hex hip]

/-- Witness for C2: `format C:` is rejected without touching the state;
`Set-Content -Path a.txt -Value 'hello'` is delegated and, the write being
attempted, reported with `is_safe = true`. -/
theorem execute_command_reject_and_content_witness :
    execute_command "/cwd" (fun _ => ("", "")) ⟨some "/proj"⟩ ⟨[], false⟩
        "format C:" = .ok ((none, none, false), ⟨[], false⟩) ∧
    execute_command "/cwd" (fun _ => ("", "")) ⟨some "/proj"⟩ ⟨[], false⟩
        "Set-Content -Path a.txt -Value 'hello'" =
      .ok ((some "File written successfully", none, true),
           ⟨[("a.txt", "hello")], false⟩) :=
  ⟨execute_command_reject_and_content.1 "/cwd" (fun _ => ("", ""))
      ⟨some "/proj"⟩ ⟨[], false⟩ "format C:" rfl,
   execute_command_reject_and_content.2.2 "/cwd" (fun _ => ("", ""))
      ⟨some "/proj"⟩ ⟨[], false⟩ "Set-Content -Path a.txt -Value 'hello'"
      "a.txt" ("Set-Content -Path a.txt ", " 'hello'") "hello"
      rfl (Or.inl rfl) rfl rfl rfl rfl⟩

/-! ## C9 — sequential batch execution -/

/-- C9 counterexample: the command `$x @'foo > f` passes the safety
classifier, but its execution reaches `content.rindex("'@")` with no
closing here-string marker present, raising an uncaught `ValueError`
(`Except.error` in the embedding) — the batch aborts and the following
`dir` command is never executed, so `execute_commands` does not stop for
nothing. -/
theorem execute_commands_abort_cex :
    is_safe_command "/cwd" ⟨some "/proj"⟩ "$x @'foo > f" = true ∧
    execute_commands "/cwd" (fun _ => ("", "")) ⟨some "/proj"⟩ ⟨[], false⟩
        [⟨some "$x @'foo > f", none⟩, ⟨some "dir", none⟩] =
      .error "substring not found" :=
  ⟨rfl, rfl⟩

/-- C9 (amended): any non-blank head command whose execution completes —
whether rejected as unsafe, completed with a failure result, or
successful — contributes its record and the rest of the list is processed
exactly as it would have been on its own from the resulting state; a head
command whose execution raises an uncaught exception aborts the whole
batch with that exception; and the concrete `[dir, format C:]` batch
yields two results in input order with `is_safe = True` then
`is_safe = False`. -/
theorem execute_commands_sequential :
    (∀ cwd shell (self : CommandExecutor) (st st' : SysState)
        (cobj : CmdObj) (rest : List CmdObj)
        (r : Option String × Option String × Bool),
        pyStrip (cobj.command.getD "") ≠ "" →
        execute_command cwd shell self st (pyStrip (cobj.command.getD "")) =
          .ok (r, st') →
        execute_commands cwd shell self st (cobj :: rest) =
          (execute_commands cwd shell self st' rest).map
            (fun p => (⟨pyStrip (cobj.command.getD ""),
                        cobj.description.getD "No description provided",
                        r.1, r.2.1, r.2.2⟩ :: p.1, p.2))) ∧
    (∀ cwd shell (self : CommandExecutor) (st : SysState)
        (cobj : CmdObj) (rest : List CmdObj) (e : String),
        pyStrip (cobj.command.getD "") ≠ "" →
        execute_command cwd shell self st (pyStrip (cobj.command.getD "")) =
          .error e →
        execute_commands cwd shell self st (cobj :: rest) = .error e) ∧
    (∀ cwd shell pd (st : SysState),
        execute_commands cwd shell ⟨some pd⟩ st
            [⟨some "dir", none⟩, ⟨some "format C:", none⟩] =
          .ok ([⟨"dir", "No description provided",
                 some (shell "dir").1, some (shell "dir").2, true⟩,
                ⟨"format C:", "No description provided", none, none, false⟩],
               ⟨st.fs, true⟩)) := by
  refine ⟨?_, ?_, ?_⟩
  · intro cwd shell self st st' cobj rest r hne hexec
    rw [execute_commands, if_neg hne, hexec]
    cases hrec : execute_commands cwd shell self st' rest with
    | error e => simp [hrec, Except.map]
    | ok p => simp [hrec, Except.map]
  · intro cwd shell self st cobj rest e hne hexec
    rw [execute_commands, if_neg hne, hexec]
  · intro cwd shell pd st
    rfl

/-- Witness for the amended C9: a failed-but-classifier-safe head
(`Set-Content` with no `-Value`, whose record carries `is_safe = false`)
does not abort the batch — the following `dir` still runs — and the
concrete two-command batch returns both records in order. -/
theorem execute_commands_sequential_witness :
    execute_commands "/cwd" (fun _ => ("", "")) ⟨some "/proj"⟩ ⟨[], false⟩
        [⟨some "Set-Content -Path a.txt", none⟩, ⟨some "dir", none⟩] =
      .ok ([⟨"Set-Content -Path a.txt", "No description provided",
             none, some "Invalid command format: missing -Value", false⟩,
            ⟨"dir", "No description provided", some "", some "", true⟩],
           ⟨[], true⟩) ∧
    execute_commands "/cwd" (fun _ => ("", "")) ⟨some "/proj"⟩ ⟨[], false⟩
        [⟨some "dir", none⟩, ⟨some "format C:", none⟩] =
      .ok ([⟨"dir", "No description provided", some "", some "", true⟩,
            ⟨"format C:", "No description provided", none, none, false⟩],
           ⟨[], true⟩) :=
  ⟨by
    rw [execute_commands_sequential.1 "/cwd" (fun _ => ("", ""))
          ⟨some "/proj"⟩ ⟨[], false⟩ ⟨[], false⟩
          ⟨some "Set-Content -Path a.txt", none⟩ [⟨some "dir", none⟩]
          (none, some "Invalid command format: missing -Value", false)
          (by decide) rfl]
    rfl,
   execute_commands_sequential.2.2 "/cwd" (fun _ => ("", "")) "/proj"
     ⟨[], false⟩⟩

/-! ## C6 — write/read round-trip -/

/-- Rejoining the successive chunks of a list reproduces the list, for any
positive chunk size and enough fuel. -/
theorem chunkedJoin_eq {size : Nat} (hs : 0 < size) :
    ∀ fuel (l : List Char), l.length ≤ fuel → chunkedJoin size fuel l = l := by
  intro fuel
  induction fuel with
  | zero =>
    intro l hl
    cases l with
    | nil => rfl
    | cons c t => simp at hl
  | succ n ih =>
    intro l hl
    cases l with
    | nil => rfl
    | cons c t =>
      rw [chunkedJoin, ih ((c :: t).drop size)
            (by rw [List.length_drop]; simp only [List.length_cons] at hl ⊢; omega)]
      exact List.take_append_drop size (c :: t)

/-- The chunked write loop stores the content unchanged. -/
theorem writeChunked_eq (c : String) : writeChunked c = c := by
  unfold writeChunked
  rw [chunkedJoin_eq (by decide : 0 < CHUNK_SIZE) c.toList.length c.toList le_rfl]
  rfl

/-- The chunked read loop returns the stored content unchanged. -/
theorem readChunked_eq (c : String) : readChunked c = c := by
  unfold readChunked
  rw [chunkedJoin_eq (by decide : 0 < CHUNK_SIZE) c.toList.length c.toList le_rfl]
  rfl

/-- The freshest write shadows older entries at its own path. -/
theorem fsLookup_fsWrite_self (fs : FS) (p v : String) :
    fsLookup (fsWrite fs p v) p = some v := by
  simp [fsLookup, fsWrite, List.find?]

/-- C6: for a path inside the root, `safe_write_file` succeeds and a
subsequent `safe_read_file` of that path yields back exactly the content
(the statement quantifies over every content string, multi-byte Unicode
and beyond-chunk-size lengths included); moreover the chunk concatenation
is the identity for every positive chunk size, so the written bytes do not
depend on `CHUNK_SIZE`. -/
theorem safe_write_read_roundtrip (cwd : String) (self : CommandExecutor)
    (fs : FS) (p c : String) (h : is_path_in_project cwd self p = true) :
    (safe_write_file cwd self fs p c).1 = (true, none) ∧
    safe_read_file cwd self (safe_write_file cwd self fs p c).2 p = (some c, none) ∧
    (∀ size, 0 < size →
      String.mk (chunkedJoin size c.toList.length c.toList) = c) := by
  refine ⟨?_, ?_, ?_⟩
  · simp [safe_write_file, h]
  · simp only [safe_write_file, h, if_pos]
    simp only [safe_read_file, h, if_pos, fsLookup_fsWrite_self,
      writeChunked_eq, readChunked_eq]
  · intro size hsz
    rw [chunkedJoin_eq hsz c.toList.length c.toList le_rfl]
    rfl

/-- Witness for C6 at a concrete in-root path and a multi-byte content. -/
theorem safe_write_read_roundtrip_witness :
    (safe_write_file "/cwd" ⟨some "/proj"⟩ [] "a.txt" "héllo 🙂").1 = (true, none) ∧
    safe_read_file "/cwd" ⟨some "/proj"⟩
        (safe_write_file "/cwd" ⟨some "/proj"⟩ [] "a.txt" "héllo 🙂").2 "a.txt" =
      (some "héllo 🙂", none) :=
  ⟨(safe_write_read_roundtrip "/cwd" ⟨some "/proj"⟩ [] "a.txt" "héllo 🙂" rfl).1,
   (safe_write_read_roundtrip "/cwd" ⟨some "/proj"⟩ [] "a.txt" "héllo 🙂" rfl).2.1⟩

/-! ## C7 — file operations fail closed with descriptive errors -/

/-- C7: a write outside the root fails with a descriptive error and an
unchanged filesystem (no file created, no partial write); reads outside
the root, copies with an endpoint outside the root, and reads of missing
files likewise return `(failure, descriptive error)` pairs — every failure
of the three operations is a returned error string, never an exception
(the Lean functions are total). -/
theorem safe_file_ops_fail_closed :
    (∀ cwd (self : CommandExecutor) fs p c,
        is_path_in_project cwd self p = false →
        safe_write_file cwd self fs p c =
          ((false, some "File path is outside project directory"), fs)) ∧
    (∀ cwd (self : CommandExecutor) fs p,
        is_path_in_project cwd self p = false →
        safe_read_file cwd self fs p =
          (none, some "File path is outside project directory")) ∧
    (∀ cwd (self : CommandExecutor) fs src dst,
        ¬(is_path_in_project cwd self src = true ∧
          is_path_in_project cwd self dst = true) →
        safe_copy_file cwd self fs src dst =
          ((false, some "Source or destination path is outside project directory"), fs)) ∧
    (∀ cwd (self : CommandExecutor) fs p,
        is_path_in_project cwd self p = true → fsLookup fs p = none →
        safe_read_file cwd self fs p =
          (none, some ("[Errno 2] No such file or directory: '" ++ p ++ "'"))) := by
  refine ⟨?_, ?_, ?_, ?_⟩
  · intro cwd self fs p c h; simp [safe_write_file, h]
  · intro cwd self fs p h; simp [safe_read_file, h]
  · intro cwd self fs src dst h; simp only [safe_copy_file, if_neg h]
  · intro cwd self fs p h hmiss; simp [safe_read_file, h, hmiss]

/-- Witness for C7 at paths outside the root `/proj`. -/
theorem safe_file_ops_fail_closed_witness :
    safe_write_file "/cwd" ⟨some "/proj"⟩ [] "/etc/passwd" "x" =
      ((false, some "File path is outside project directory"), []) ∧
    safe_read_file "/cwd" ⟨some "/proj"⟩ [] "/etc/passwd" =
      (none, some "File path is outside project directory") ∧
    safe_copy_file "/cwd" ⟨some "/proj"⟩ [] "a.txt" "/etc/x" =
      ((false, some "Source or destination path is outside project directory"), []) :=
  ⟨safe_file_ops_fail_closed.1 "/cwd" ⟨some "/proj"⟩ [] "/etc/passwd" "x" rfl,
   safe_file_ops_fail_closed.2.1 "/cwd" ⟨some "/proj"⟩ [] "/etc/passwd" rfl,
   safe_file_ops_fail_closed.2.2.1 "/cwd" ⟨some "/proj"⟩ [] "a.txt" "/etc/x"
     (by intro h; exact absurd h.2 (by decide))⟩

/-! ## C8 — handle_set_content strips the surrounding quotes -/

/-- C8: on `Set-Content -Path script.py -Value "print('hi')"` the handler
succeeds and the file stored at `script.py` holds exactly `print('hi')` —
the surrounding double quotes are stripped and not written. -/
theorem handle_set_content_writes_unquoted (fs : FS) :
    (handle_set_content "/cwd" ⟨some "/proj"⟩ fs
        "Set-Content -Path script.py -Value \"print('hi')\"").1 =
      (true, some "File written successfully", none) ∧
    fsLookup (handle_set_content "/cwd" ⟨some "/proj"⟩ fs
        "Set-Content -Path script.py -Value \"print('hi')\"").2 "script.py" =
      some "print('hi')" :=
  ⟨rfl, rfl⟩

/-- Witness for C8 on the empty filesystem. -/
theorem handle_set_content_writes_unquoted_witness :
    (handle_set_content "/cwd" ⟨some "/proj"⟩ []
        "Set-Content -Path script.py -Value \"print('hi')\"").1 =
      (true, some "File written successfully", none) :=
  (handle_set_content_writes_unquoted []).1

/-! ## Path-normalization lemmas for the amended C5 -/

/-- Character list of a concatenation. -/
theorem toList_append (s t : String) : (s ++ t).toList = s.toList ++ t.toList :=
  String.data_append s t

/-- Rebuilding a string from its character list. -/
theorem mk_toList (s : String) : String.mk s.toList = s := rfl

/-- A built string is empty exactly when its character list is. -/
theorem mk_eq_empty_iff (l : List Char) : String.mk l = "" ↔ l = [] :=
  ⟨fun h => congrArg String.data h, fun h => by rw [h]⟩

/-- `listHasSub` decides contiguous-sublist containment. -/
theorem listHasSub_iff (pat l : List Char) :
    listHasSub pat l = true ↔ pat <:+: l := by
  induction l with
  | nil =>
    simp [listHasSub, List.isPrefixOf_iff_prefix, List.infix_nil,
      List.prefix_nil]
  | cons c t ih =>
    rw [listHasSub, Bool.or_eq_true, List.isPrefixOf_iff_prefix, ih,
      List.infix_cons_iff]

/-- Every token produced by the splitter occurs contiguously in the
pending segment plus the remaining input. -/
theorem mem_splitByAux_infix (p : Char → Bool) :
    ∀ (l cur : List Char) (x : String), x ∈ splitByAux p cur l →
      x.toList <:+: (cur.reverse ++ l) := by
  intro l
  induction l with
  | nil =>
    intro cur x hx
    rw [splitByAux] at hx
    cases hc : cur.isEmpty with
    | true => simp [hc] at hx
    | false =>
      simp only [hc, Bool.false_eq_true, if_false, List.mem_singleton] at hx
      subst hx
      simp
  | cons c cs ih =>
    intro cur x hx
    rw [splitByAux] at hx
    by_cases hpc : p c
    · rw [if_pos hpc] at hx
      cases hc : cur.isEmpty with
      | true =>
        rw [hc, if_pos rfl] at hx
        have := ih [] x hx
        simp only [List.reverse_nil, List.nil_append] at this
        exact this.trans ⟨cur.reverse ++ [c], [], by simp⟩
      | false =>
        rw [hc] at hx
        simp only [Bool.false_eq_true, if_false, List.mem_cons] at hx
        rcases hx with hx | hx
        · subst hx
          exact (List.prefix_append cur.reverse (c :: cs)).isInfix
        · have := ih [] x hx
          simp only [List.reverse_nil, List.nil_append] at this
          exact this.trans ⟨cur.reverse ++ [c], [], by simp⟩
    · rw [if_neg hpc] at hx
      have := ih (c :: cur) x hx
      simpa [List.append_assoc] using this

/-- Tokens of the splitter are non-empty and contain no separator. -/
theorem mem_splitByAux_clean (p : Char → Bool) :
    ∀ (l cur : List Char) (x : String), (∀ c ∈ cur, p c = false) →
      x ∈ splitByAux p cur l →
      x ≠ "" ∧ ∀ ch ∈ x.toList, p ch = false := by
  intro l
  induction l with
  | nil =>
    intro cur x hcur hx
    rw [splitByAux] at hx
    cases hc : cur.isEmpty with
    | true => simp [hc] at hx
    | false =>
      simp only [hc, Bool.false_eq_true, if_false, List.mem_singleton] at hx
      subst hx
      refine ⟨?_, ?_⟩
      · rw [Ne, mk_eq_empty_iff, List.reverse_eq_nil_iff]
        simpa [List.isEmpty_iff] using hc
      · intro ch hch
        exact hcur ch (by simpa using hch)
  | cons c cs ih =>
    intro cur x hcur hx
    rw [splitByAux] at hx
    by_cases hpc : p c
    · rw [if_pos hpc] at hx
      cases hc : cur.isEmpty with
      | true =>
        rw [hc, if_pos rfl] at hx
        exact ih [] x (by simp) hx
      | false =>
        rw [hc] at hx
        simp only [Bool.false_eq_true, if_false, List.mem_cons] at hx
        rcases hx with hx | hx
        · subst hx
          refine ⟨?_, ?_⟩
          · rw [Ne, mk_eq_empty_iff, List.reverse_eq_nil_iff]
            simpa [List.isEmpty_iff] using hc
          · intro ch hch
            exact hcur ch (by simpa using hch)
        · exact ih [] x (by simp) hx
    · rw [if_neg hpc] at hx
      refine ih (c :: cur) x ?_ hx
      intro ch hch
      rcases List.mem_cons.mp hch with h | h
      · subst h; simpa using hpc
      · exact hcur ch h

/-- Splitting distributes over a separator occurrence. -/
theorem splitByAux_append_cut (p : Char → Bool) (c₀ : Char) (hp : p c₀ = true) :
    ∀ (a : List Char) (cur b : List Char),
      splitByAux p cur (a ++ c₀ :: b) = splitByAux p cur a ++ splitByAux p [] b := by
  intro a
  induction a with
  | nil =>
    intro cur b
    rw [List.nil_append, splitByAux, splitByAux, hp, if_pos rfl]
    cases hc : cur.isEmpty with
    | true => rw [if_pos rfl, if_pos rfl, List.nil_append]
    | false =>
      simp only [Bool.false_eq_true, if_false]
      rw [List.singleton_append]
  | cons c a' ih =>
    intro cur b
    rw [List.cons_append, splitByAux, splitByAux]
    by_cases hpc : p c
    · rw [if_pos hpc, if_pos hpc]
      cases hc : cur.isEmpty with
      | true => rw [if_pos rfl, if_pos rfl, ih]
      | false =>
        simp only [Bool.false_eq_true, if_false]
        rw [ih, List.cons_append]
    · rw [if_neg hpc, if_neg hpc, ih]

/-- A list ending in an element is non-empty. -/
theorem isEmpty_append_singleton (xs : List Char) (x : Char) :
    (xs ++ [x]).isEmpty = false := by cases xs <;> rfl

/-- A list containing a cons cell is non-empty. -/
theorem isEmpty_append_cons (l : List Char) (c : Char) (t : List Char) :
    (l ++ c :: t).isEmpty = false := by cases l <;> rfl

/-- The character list of a non-empty string is non-empty. -/
theorem toList_isEmpty_false {a : String} (h : a ≠ "") :
    a.toList.isEmpty = false := by
  cases hl : a.toList with
  | nil => exact absurd (by rw [← mk_toList a, hl]) h
  | cons c t => rfl

/-- Splitting separator-free input yields at most the one pending token. -/
theorem splitByAux_no_cut (p : Char → Bool) :
    ∀ (a cur : List Char), (∀ c ∈ a, p c = false) →
      splitByAux p cur a =
        if (cur.reverse ++ a).isEmpty then [] else [String.mk (cur.reverse ++ a)] := by
  intro a
  induction a with
  | nil =>
    intro cur _
    rw [splitByAux, List.append_nil]
    cases cur with
    | nil => rfl
    | cons c t =>
      simp only [List.reverse_cons, isEmpty_append_singleton,
        show (c :: t).isEmpty = false from rfl, Bool.false_eq_true, if_false]
  | cons c a' ih =>
    intro cur ha
    rw [splitByAux, if_neg (by simpa using ha c (List.mem_cons_self c a'))]
    rw [ih (c :: cur) (fun d hd => ha d (List.mem_cons_of_mem c hd))]
    have he : (c :: cur).reverse ++ a' = cur.reverse ++ c :: a' := by
      rw [List.reverse_cons, List.append_assoc, List.singleton_append]
    rw [he, isEmpty_append_cons]

/-- Joining a single part is that part. -/
theorem joinWith_single (c₀ : Char) (a : String) : joinWith c₀ [a] = a := rfl

/-- Unfolding equation of `joinWith` on two or more parts. -/
theorem joinWith_cons₂ (c₀ : Char) (a b : String) (r : List String) :
    joinWith c₀ (a :: b :: r) = a ++ String.mk [c₀] ++ joinWith c₀ (b :: r) := rfl

/-- Splitting a separator-join of clean tokens recovers the tokens. -/
theorem splitByAux_joinWith (p : Char → Bool) (c₀ : Char) (hp : p c₀ = true) :
    ∀ L : List String,
      (∀ x ∈ L, x ≠ "" ∧ ∀ ch ∈ x.toList, p ch = false) →
      splitByAux p [] (joinWith c₀ L).toList = L := by
  intro L
  induction L with
  | nil => intro _; rfl
  | cons a r ih =>
    intro hL
    cases r with
    | nil =>
      have ha := hL a (List.mem_cons_self a [])
      rw [joinWith_single, splitByAux_no_cut p a.toList [] ha.2]
      simp only [List.reverse_nil, List.nil_append, toList_isEmpty_false ha.1,
        Bool.false_eq_true, if_false, mk_toList]
    | cons b r' =>
      have ha := hL a (List.mem_cons_self a _)
      have hrest : ∀ x ∈ b :: r', x ≠ "" ∧ ∀ ch ∈ x.toList, p ch = false :=
        fun x hx => hL x (List.mem_cons_of_mem a hx)
      rw [joinWith_cons₂]
      have htl : (a ++ String.mk [c₀] ++ joinWith c₀ (b :: r')).toList =
          a.toList ++ c₀ :: (joinWith c₀ (b :: r')).toList := by
        rw [toList_append, toList_append, List.append_assoc]
        rfl
      rw [htl, splitByAux_append_cut p c₀ hp, ih hrest,
        splitByAux_no_cut p a.toList [] ha.2]
      simp only [List.reverse_nil, List.nil_append, toList_isEmpty_false ha.1,
        Bool.false_eq_true, if_false, mk_toList, List.singleton_append]

/-- Elements produced by the normalization fold come from the accumulator
or the input. -/
theorem normAbs_step_mem :
    ∀ (l : List String) (acc : List String) (x : String),
      x ∈ l.foldl
        (fun acc s =>
          if s = "." ∨ s = "" then acc
          else if s = ".." then acc.dropLast
          else acc ++ [s]) acc →
      x ∈ acc ∨ x ∈ l := by
  intro l
  induction l with
  | nil => intro acc x hx; exact Or.inl hx
  | cons s t ih =>
    intro acc x hx
    rw [List.foldl_cons] at hx
    rcases ih _ x hx with h | h
    · by_cases h1 : s = "." ∨ s = ""
      · rw [if_pos h1] at h
        exact Or.inl h
      · rw [if_neg h1] at h
        by_cases h2 : s = ".."
        · rw [if_pos h2] at h
          exact Or.inl (List.mem_of_mem_dropLast h)
        · rw [if_neg h2] at h
          rcases List.mem_append.mp h with h | h
          · exact Or.inl h
          · exact Or.inr (by rw [List.mem_singleton.mp h]; exact List.mem_cons_self s t)
    · exact Or.inr (List.mem_cons_of_mem s h)

/-- Every segment of a normalized path is a segment of the input. -/
theorem mem_normAbs {l : List String} {x : String} (hx : x ∈ normAbs l) : x ∈ l := by
  rcases normAbs_step_mem l [] x hx with h | h
  · simp at h
  · exact h

/-- The normalization fold never emits empty, dot or dot-dot segments
(invariant form). -/
theorem normAbs_clean_aux :
    ∀ (l acc : List String),
      (∀ x ∈ acc, ¬(x = "." ∨ x = "" ∨ x = "..")) →
      ∀ x ∈ l.foldl
        (fun acc s =>
          if s = "." ∨ s = "" then acc
          else if s = ".." then acc.dropLast
          else acc ++ [s]) acc,
      ¬(x = "." ∨ x = "" ∨ x = "..") := by
  intro l
  induction l with
  | nil => intro acc hacc x hx; exact hacc x hx
  | cons s t ih =>
    intro acc hacc x hx
    rw [List.foldl_cons] at hx
    refine ih _ ?_ x hx
    intro y hy
    by_cases h1 : s = "." ∨ s = ""
    · rw [if_pos h1] at hy
      exact hacc y hy
    · rw [if_neg h1] at hy
      by_cases h2 : s = ".."
      · rw [if_pos h2] at hy
        exact hacc y (List.mem_of_mem_dropLast hy)
      · rw [if_neg h2] at hy
        rcases List.mem_append.mp hy with h | h
        · exact hacc y h
        · have := List.mem_singleton.mp h
          subst this
          push_neg at h1 ⊢
          exact ⟨h1.1, h1.2, h2⟩

/-- Normalized segment lists contain no empty, dot or dot-dot segments. -/
theorem normAbs_clean {l : List String} :
    ∀ x ∈ normAbs l, ¬(x = "." ∨ x = "" ∨ x = "..") :=
  normAbs_clean_aux l [] (by simp)

/-- On clean segments the normalization fold is plain appending. -/
theorem foldl_clean_append :
    ∀ (m acc : List String),
      (∀ x ∈ m, ¬(x = "." ∨ x = "" ∨ x = "..")) →
      m.foldl
        (fun acc s =>
          if s = "." ∨ s = "" then acc
          else if s = ".." then acc.dropLast
          else acc ++ [s]) acc = acc ++ m := by
  intro m
  induction m with
  | nil => intro acc _; simp
  | cons s t ih =>
    intro acc hm
    have hs := hm s (List.mem_cons_self s t)
    push_neg at hs
    rw [List.foldl_cons, if_neg (by tauto), if_neg hs.2.2,
      ih (acc ++ [s]) (fun x hx => hm x (List.mem_cons_of_mem s hx))]
    simp

/-- Path-segment normalization is idempotent. -/
theorem normAbs_idem (l : List String) : normAbs (normAbs l) = normAbs l := by
  rw [normAbs, foldl_clean_append (normAbs l) [] normAbs_clean]
  simp

/-- Appending dot-dot-free segments normalizes independently of the
prefix. -/
theorem normAbs_append_no_dotdot :
    ∀ (sp l₁ : List String), (∀ s ∈ sp, s ≠ "..") →
      normAbs (l₁ ++ sp) =
        normAbs l₁ ++ sp.filter (fun s => !(s == "." || s == "")) := by
  intro sp
  have key : ∀ (sp acc : List String), (∀ s ∈ sp, s ≠ "..") →
      sp.foldl
        (fun acc s =>
          if s = "." ∨ s = "" then acc
          else if s = ".." then acc.dropLast
          else acc ++ [s]) acc = acc ++ sp.filter (fun s => !(s == "." || s == "")) := by
    intro sp
    induction sp with
    | nil => intro acc _; simp
    | cons s t ih =>
      intro acc hsp
      rw [List.foldl_cons]
      by_cases h1 : s = "." ∨ s = ""
      · rw [if_pos h1, ih acc (fun x hx => hsp x (List.mem_cons_of_mem s hx))]
        have : (s == "." || s == "") = true := by
          rcases h1 with h | h <;> simp [h]
        rw [List.filter_cons, this]
        rfl
      · rw [if_neg h1, if_neg (hsp s (List.mem_cons_self s t)),
          ih (acc ++ [s]) (fun x hx => hsp x (List.mem_cons_of_mem s hx))]
        have : (!(s == "." || s == "")) = true := by
          push_neg at h1
          simp [h1.1, h1.2]
        rw [List.filter_cons, this]
        simp
  intro l₁ h
  rw [normAbs, List.foldl_append, key sp _ h]
  rfl

/-- A string starting with the separator is absolute. -/
theorem pyIsAbs_slash_append (x : String) : pyIsAbs ("/" ++ x) = true := by
  rw [pyIsAbs, pyStartsWith, toList_append, List.isPrefixOf_iff_prefix]
  exact List.prefix_append _ _

/-- Normalized path strings are absolute. -/
theorem pyIsAbs_normAbsStr (s : String) : pyIsAbs (normAbsStr s) = true := by
  rw [normAbsStr]; exact pyIsAbs_slash_append _

/-- Normalized path strings are never empty. -/
theorem normAbsStr_ne_empty (s : String) : normAbsStr s ≠ "" := by
  intro h
  have h2 := congrArg String.toList h
  rw [normAbsStr, toList_append] at h2
  have h3 : ('/' : Char) :: (joinWith '/' (normAbs (splitSegs s))).toList =
      ([] : List Char) := h2
  exact List.noConfusion h3

/-- Re-splitting a normalized path string recovers the normalized
segments. -/
theorem splitSegs_normAbsStr (s : String) :
    splitSegs (normAbsStr s) = normAbs (splitSegs s) := by
  have hclean : ∀ x ∈ normAbs (splitSegs s),
      x ≠ "" ∧ ∀ ch ∈ x.toList, (decide (ch = '/') : Bool) = false := by
    intro x hx
    exact mem_splitByAux_clean _ s.toList [] x (by simp) (mem_normAbs hx)
  rw [splitSegs, normAbsStr]
  have ht : ("/" ++ joinWith '/' (normAbs (splitSegs s))).toList =
      '/' :: (joinWith '/' (normAbs (splitSegs s))).toList := by
    rw [toList_append]; rfl
  rw [ht, splitByAux, if_pos (show decide (('/' : Char) = '/') = true from rfl),
    if_pos (show ([] : List Char).isEmpty = true from rfl)]
  exact splitByAux_joinWith _ '/' rfl _ hclean

/-- String-level normalization is idempotent. -/
theorem normAbsStr_idem (s : String) : normAbsStr (normAbsStr s) = normAbsStr s := by
  conv_lhs => rw [normAbsStr]
  rw [splitSegs_normAbsStr, normAbs_idem, normAbsStr]

/-- The model of os.path.abspath is idempotent. -/
theorem pyAbspath_idem (cwd x : String) :
    pyAbspath cwd (pyAbspath cwd x) = pyAbspath cwd x := by
  rw [pyAbspath, pyAbspath, pyJoin, if_pos (pyIsAbs_normAbsStr (pyJoin cwd x))]
  exact normAbsStr_idem _

/-- Prepending a non-empty string determines absoluteness. -/
theorem pyIsAbs_append {a : String} (b : String) (h : a ≠ "") :
    pyIsAbs (a ++ b) = pyIsAbs a := by
  rw [pyIsAbs, pyIsAbs, pyStartsWith, pyStartsWith, toList_append]
  cases hl : a.toList with
  | nil => exact absurd (by rw [← mk_toList a, hl]) h
  | cons c t => simp [List.isPrefixOf, List.cons_append]

/-- Appending a separator yields a non-empty string. -/
theorem append_slash_ne_empty (a : String) : a ++ "/" ≠ "" := by
  intro h
  have h2 := congrArg String.toList h
  rw [toList_append] at h2
  have h3 : a.toList ++ ['/'] = ([] : List Char) := h2
  simp at h3

/-- Segments of a concatenation split at a trailing separator. -/
theorem splitSegs_append_of_endSlash {a : String} (b : String)
    (h : pyEndsWith a "/" = true) :
    splitSegs (a ++ b) = splitSegs a ++ splitSegs b := by
  rw [pyEndsWith, List.isSuffixOf_iff_suffix] at h
  obtain ⟨a', ha⟩ := h
  have h1 : a.toList = a' ++ ['/'] := ha.symm
  rw [splitSegs, splitSegs, splitSegs, toList_append, h1, List.append_assoc,
    List.singleton_append,
    splitByAux_append_cut _ '/' (by decide) a' [] b.toList,
    splitByAux_append_cut _ '/' (by decide) a' [] []]
  rw [show splitByAux (fun c => decide (c = '/')) [] [] = [] from rfl,
    List.append_nil]

/-- Segments of a join with a relative second argument are the
concatenated segments. -/
theorem splitSegs_join_rel {b : String} (a : String) (hb : pyIsAbs b = false) :
    splitSegs (pyJoin a b) = splitSegs a ++ splitSegs b := by
  rw [pyJoin, if_neg (by rw [hb]; exact Bool.false_ne_true)]
  by_cases h2 : a = "" ∨ pyEndsWith a "/" = true
  · rw [if_pos (by exact h2)]
    rcases h2 with h | h
    · subst h
      rw [show ("" ++ b) = b by simp]
      rfl
    · exact splitSegs_append_of_endSlash b h
  · rw [if_neg (by exact h2)]
    have ha : pyEndsWith (a ++ "/") "/" = true := by
      rw [pyEndsWith, List.isSuffixOf_iff_suffix, toList_append]
      exact ⟨a.toList, rfl⟩
    have h3 : splitSegs (a ++ "/") = splitSegs a := by
      rw [splitSegs, splitSegs, toList_append,
        show ("/" : String).toList = ['/'] from rfl,
        splitByAux_append_cut _ '/' (by decide) a.toList [] [],
        show splitByAux (fun c => decide (c = '/')) [] ([] : List Char) = [] from rfl,
        List.append_nil]
    rw [splitSegs_append_of_endSlash b ha, h3]

/-- The empty string is not absolute. -/
theorem pyIsAbs_empty : pyIsAbs "" = false := rfl

/-- Joining a relative path preserves the absoluteness of the base. -/
theorem pyJoin_isAbs {b : String} (a : String) (hb : pyIsAbs b = false) :
    pyIsAbs (pyJoin a b) = pyIsAbs a := by
  rw [pyJoin, if_neg (by rw [hb]; exact Bool.false_ne_true)]
  by_cases h2 : a = "" ∨ pyEndsWith a "/" = true
  · rw [if_pos (by exact h2)]
    by_cases ha : a = ""
    · subst ha
      rw [show ("" ++ b) = b by simp, pyIsAbs_empty, hb]
    · exact pyIsAbs_append b ha
  · rw [if_neg (by exact h2)]
    push_neg at h2
    rw [pyIsAbs_append b (append_slash_ne_empty a), pyIsAbs_append "/" h2.1]

/-- Segments of the double join of cwd, root and a relative candidate. -/
theorem splitSegs_join_join {p : String} (cwd pd : String)
    (hp : pyIsAbs p = false) :
    splitSegs (pyJoin cwd (pyJoin pd p)) = splitSegs (pyJoin cwd pd) ++ splitSegs p := by
  by_cases hpd : pyIsAbs pd = true
  · have hj : pyIsAbs (pyJoin pd p) = true := by rw [pyJoin_isAbs pd hp, hpd]
    rw [show pyJoin cwd (pyJoin pd p) = pyJoin pd p by rw [pyJoin, if_pos hj]]
    rw [show pyJoin cwd pd = pd by rw [pyJoin, if_pos hpd]]
    exact splitSegs_join_rel pd hp
  · have hpd' : pyIsAbs pd = false := by
      cases h : pyIsAbs pd with
      | true => exact absurd h hpd
      | false => rfl
    have hj : pyIsAbs (pyJoin pd p) = false := by rw [pyJoin_isAbs pd hp, hpd']
    rw [splitSegs_join_rel cwd hj, splitSegs_join_rel pd hp,
      splitSegs_join_rel cwd hpd', List.append_assoc]

/-- The common prefix of a list with an extension of itself is the whole
list. -/
theorem commonPrefixLen_self_append :
    ∀ (R T : List String), commonPrefixLen R (R ++ T) = R.length := by
  intro R T
  induction R with
  | nil => rfl
  | cons a as ih =>
    rw [List.cons_append, commonPrefixLen, if_pos rfl, ih]
    rfl

/-- The relpath model when the start segments are a prefix of the path
segments: the relative walk is the remaining segments (or a lone dot). -/
theorem pyRelpath_of_prefix (cwd path start : String) (hne : path ≠ "")
    (R T : List String)
    (hstart : splitSegs (pyAbspath cwd start) = R)
    (hpath : splitSegs (pyAbspath cwd path) = R ++ T) :
    pyRelpath cwd path start =
      .ok (if T = [] then "." else joinWith '/' T) := by
  rw [pyRelpath, if_neg hne]
  simp only [hstart, hpath, commonPrefixLen_self_append, Nat.sub_self,
    List.replicate_zero, List.nil_append, List.drop_left]
  by_cases hT : T = []
  · rw [if_pos hT, if_pos hT]
  · rw [if_neg hT, if_neg hT]

/-- A string without a tilde does not start with a tilde. -/
theorem startsWith_tilde_false {p : String} (h : containsChar p '~' = false) :
    pyStartsWith p "~" = false := by
  cases hs : pyStartsWith p "~" with
  | false => rfl
  | true =>
    rw [pyStartsWith, List.isPrefixOf_iff_prefix] at hs
    obtain ⟨t, ht⟩ := hs
    have hm : ('~' : Char) ∈ p.toList := by
      rw [← ht]
      exact List.mem_append_left _ (show ('~' : Char) ∈ "~".toList from
        List.mem_cons_self '~' [])
    rw [containsChar, show p.toList.contains '~' = true by simpa using hm] at h
    exact absurd h (by simp)

/-- No segment of a dot-dot-free string starts with two dots. -/
theorem seg_no_dotdot_start {s : String} (hdd : containsSub s ".." = false)
    {x : String} (hx : x ∈ splitSegs s) : ¬ (['.', '.'] <+: x.toList) := by
  intro hpre
  have hinf : x.toList <:+: s.toList := by
    have := mem_splitByAux_infix _ s.toList [] x hx
    simpa using this
  have hsub : listHasSub ['.', '.'] s.toList = true :=
    (listHasSub_iff _ _).mpr (hpre.isInfix.trans hinf)
  rw [containsSub, show (String.toList "..") = ['.', '.'] from rfl, hsub] at hdd
  exact absurd hdd (by simp)

/-- A separator-join whose head does not start with two dots does not
start with two dots. -/
theorem joinWith_not_dotdot (t₀ : String) (ts : List String)
    (h : ¬ (['.', '.'] <+: t₀.toList)) :
    pyStartsWith (joinWith '/' (t₀ :: ts)) ".." = false := by
  cases hs : pyStartsWith (joinWith '/' (t₀ :: ts)) ".." with
  | false => rfl
  | true =>
    exfalso
    rw [pyStartsWith, List.isPrefixOf_iff_prefix] at hs
    have hs' : ['.', '.'] <+: (joinWith '/' (t₀ :: ts)).toList := hs
    cases ts with
    | nil =>
      rw [joinWith_single] at hs'
      exact h hs'
    | cons b r =>
      rw [joinWith_cons₂] at hs'
      have htl : (t₀ ++ String.mk ['/'] ++ joinWith '/' (b :: r)).toList =
          t₀.toList ++ '/' :: (joinWith '/' (b :: r)).toList := by
        rw [toList_append, toList_append, List.append_assoc]
        rfl
      rw [htl] at hs'
      cases hl : t₀.toList with
      | nil =>
        rw [hl, List.nil_append] at hs'
        rcases List.cons_prefix_cons.mp hs' with ⟨h1, _⟩
        exact absurd h1 (by decide)
      | cons c u =>
        cases u with
        | nil =>
          rw [hl, List.singleton_append] at hs'
          rcases List.cons_prefix_cons.mp hs' with ⟨h1, h2⟩
          rcases List.cons_prefix_cons.mp h2 with ⟨h3, _⟩
          exact absurd h3 (by decide)
        | cons d u' =>
          rw [hl, List.cons_append, List.cons_append] at hs'
          rcases List.cons_prefix_cons.mp hs' with ⟨h1, h2⟩
          rcases List.cons_prefix_cons.mp h2 with ⟨h3, _⟩
          apply h
          rw [hl, ← h1, ← h3]
          exact ⟨u', rfl⟩

/-- C5 (amended): a path that is lexically inside the configured root,
contains no dot-dot substring, no tilde and no null byte is accepted by
`is_path_in_project`; relative paths are anchored at the root directory,
never at the process working directory. -/
theorem is_path_in_project_accepts_inside (cwd pd p : String)
    (hlex : lexInside cwd pd p = true)
    (hdd : containsSub p ".." = false)
    (htl : containsChar p '~' = false)
    (hnull : containsChar p '\x00' = false) :
    is_path_in_project cwd ⟨some pd⟩ p = true := by
  have htilde := startsWith_tilde_false htl
  have hnodd : ∀ s ∈ splitSegs p, s ≠ ".." := by
    intro s hs he
    apply seg_no_dotdot_start hdd hs
    rw [he]
    exact List.prefix_refl _
  set A := (if pyIsAbs p then pyAbspath cwd p else pyAbspath cwd (pyJoin pd p))
    with hA
  have hpd : splitSegs (pyAbspath cwd pd) = normAbs (splitSegs (pyJoin cwd pd)) := by
    rw [pyAbspath, splitSegs_normAbsStr]
  have hstart : splitSegs (pyAbspath cwd (pyAbspath cwd pd)) =
      normAbs (splitSegs (pyJoin cwd pd)) := by
    rw [pyAbspath_idem]
    exact hpd
  have hmain : ∃ T, splitSegs (pyAbspath cwd A) =
      normAbs (splitSegs (pyJoin cwd pd)) ++ T ∧ ∀ x ∈ T, x ∈ splitSegs p := by
    by_cases habs : pyIsAbs p = true
    · have hAeq : A = pyAbspath cwd p := by rw [hA, if_pos habs]
      have hsplitA : splitSegs A = normAbs (splitSegs p) := by
        rw [hAeq, pyAbspath, splitSegs_normAbsStr,
          show pyJoin cwd p = p by rw [pyJoin, if_pos habs]]
      rw [lexInside] at hlex
      rw [← hA, List.isPrefixOf_iff_prefix, hpd, hsplitA] at hlex
      obtain ⟨T, hT⟩ := hlex
      refine ⟨T, ?_, ?_⟩
      · have h1 : splitSegs (pyAbspath cwd A) = splitSegs A := by
          rw [hAeq, pyAbspath_idem]
        rw [h1, hsplitA, ← hT]
      · intro x hx
        have : x ∈ normAbs (splitSegs p) := by
          rw [← hT]
          exact List.mem_append_right _ hx
        exact mem_normAbs this
    · have hrel : pyIsAbs p = false := by
        cases h : pyIsAbs p with
        | true => exact absurd h habs
        | false => rfl
      have hAeq : A = pyAbspath cwd (pyJoin pd p) := by
        rw [hA, if_neg (by rw [hrel]; exact Bool.false_ne_true)]
      have hsplitA : splitSegs A = normAbs (splitSegs (pyJoin cwd pd)) ++
          (splitSegs p).filter (fun s => !(s == "." || s == "")) := by
        rw [hAeq, pyAbspath, splitSegs_normAbsStr, splitSegs_join_join cwd pd hrel,
          normAbs_append_no_dotdot (splitSegs p) (splitSegs (pyJoin cwd pd)) hnodd]
      refine ⟨(splitSegs p).filter (fun s => !(s == "." || s == "")), ?_, ?_⟩
      · have h1 : splitSegs (pyAbspath cwd A) = splitSegs A := by
          rw [hAeq, pyAbspath_idem]
        rw [h1, hsplitA]
      · intro x hx
        exact List.mem_of_mem_filter hx
  obtain ⟨T, hPT, hTmem⟩ := hmain
  have hAne : A ≠ "" := by
    rw [hA]
    by_cases h : pyIsAbs p = true
    · rw [if_pos h, pyAbspath]; exact normAbsStr_ne_empty _
    · rw [if_neg h, pyAbspath]; exact normAbsStr_ne_empty _
  have hres : resolvedRel cwd pd p =
      .ok (if T = [] then "." else joinWith '/' T) := by
    rw [resolvedRel, ← hA]
    exact pyRelpath_of_prefix cwd A (pyAbspath cwd pd) hAne _ T hstart hPT
  rw [is_path_in_project_some, hnull]
  simp only [Bool.false_eq_true, if_false, hres]
  have hnostart : pyStartsWith (if T = [] then "." else joinWith '/' T) ".." = false := by
    by_cases hT : T = []
    · rw [if_pos hT]; rfl
    · rw [if_neg hT]
      cases T with
      | nil => exact absurd rfl hT
      | cons t₀ ts =>
        exact joinWith_not_dotdot t₀ ts
          (seg_no_dotdot_start hdd (hTmem t₀ (List.mem_cons_self _ _)))
  rw [hnostart, htilde]
  simp


/-- Witness for the amended C5 at a concrete relative path. -/
theorem is_path_in_project_accepts_inside_witness :
    is_path_in_project "/cwd" ⟨some "/proj"⟩ "sub/file.txt" = true :=
  is_path_in_project_accepts_inside "/cwd" "/proj" "sub/file.txt"
    rfl rfl rfl rfl

/-! ## Lowercasing lemmas for the amended C3 -/

/-- The ASCII uppercase letters. -/
def upperChars : List Char :=
  ['A', 'B', 'C', 'D', 'E', 'F', 'G', 'H', 'I', 'J', 'K', 'L', 'M', 'N', 'O', 'P', 'Q', 'R', 'S', 'T', 'U', 'V', 'W', 'X', 'Y', 'Z']

/-- The ASCII lowercase letters. -/
def lowerChars : List Char :=
  ['a', 'b', 'c', 'd', 'e', 'f', 'g', 'h', 'i', 'j', 'k', 'l', 'm', 'n', 'o', 'p', 'q', 'r', 's', 't', 'u', 'v', 'w', 'x', 'y', 'z']

/-- A character that is no uppercase letter is fixed by lowercasing. -/
theorem pyToLowerChar_eq_self (ch : Char)
    (h1 : ¬ ch = 'A') (h2 : ¬ ch = 'B') (h3 : ¬ ch = 'C') (h4 : ¬ ch =
    'D') (h5 : ¬ ch = 'E') (h6 : ¬ ch = 'F') (h7 : ¬ ch = 'G') (h8 : ¬
    ch = 'H') (h9 : ¬ ch = 'I') (h10 : ¬ ch = 'J') (h11 : ¬ ch = 'K')
    (h12 : ¬ ch = 'L') (h13 : ¬ ch = 'M') (h14 : ¬ ch = 'N') (h15 : ¬ ch
    = 'O') (h16 : ¬ ch = 'P') (h17 : ¬ ch = 'Q') (h18 : ¬ ch = 'R') (h19
    : ¬ ch = 'S') (h20 : ¬ ch = 'T') (h21 : ¬ ch = 'U') (h22 : ¬ ch =
    'V') (h23 : ¬ ch = 'W') (h24 : ¬ ch = 'X') (h25 : ¬ ch = 'Y') (h26 :
    ¬ ch = 'Z') :
    pyToLowerChar ch = ch := by
  rw [pyToLowerChar, if_neg h1, if_neg h2, if_neg h3, if_neg h4, if_neg
    h5, if_neg h6, if_neg h7, if_neg h8, if_neg h9, if_neg h10, if_neg
    h11, if_neg h12, if_neg h13, if_neg h14, if_neg h15, if_neg h16,
    if_neg h17, if_neg h18, if_neg h19, if_neg h20, if_neg h21, if_neg
    h22, if_neg h23, if_neg h24, if_neg h25, if_neg h26]

/-- Lowercasing either fixes a character or sends an uppercase letter to
a lowercase one. -/
theorem pyToLowerChar_cases (ch : Char) :
    pyToLowerChar ch = ch ∨ (ch ∈ upperChars ∧ pyToLowerChar ch ∈ lowerChars) := by
  by_cases h1 : ch = 'A'
  · subst h1; exact Or.inr ⟨by decide, by decide⟩
  by_cases h2 : ch = 'B'
  · subst h2; exact Or.inr ⟨by decide, by decide⟩
  by_cases h3 : ch = 'C'
  · subst h3; exact Or.inr ⟨by decide, by decide⟩
  by_cases h4 : ch = 'D'
  · subst h4; exact Or.inr ⟨by decide, by decide⟩
  by_cases h5 : ch = 'E'
  · subst h5; exact Or.inr ⟨by decide, by decide⟩
  by_cases h6 : ch = 'F'
  · subst h6; exact Or.inr ⟨by decide, by decide⟩
  by_cases h7 : ch = 'G'
  · subst h7; exact Or.inr ⟨by decide, by decide⟩
  by_cases h8 : ch = 'H'
  · subst h8; exact Or.inr ⟨by decide, by decide⟩
  by_cases h9 : ch = 'I'
  · subst h9; exact Or.inr ⟨by decide, by decide⟩
  by_cases h10 : ch = 'J'
  · subst h10; exact Or.inr ⟨by decide, by decide⟩
  by_cases h11 : ch = 'K'
  · subst h11; exact Or.inr ⟨by decide, by decide⟩
  by_cases h12 : ch = 'L'
  · subst h12; exact Or.inr ⟨by decide, by decide⟩
  by_cases h13 : ch = 'M'
  · subst h13; exact Or.inr ⟨by decide, by decide⟩
  by_cases h14 : ch = 'N'
  · subst h14; exact Or.inr ⟨by decide, by decide⟩
  by_cases h15 : ch = 'O'
  · subst h15; exact Or.inr ⟨by decide, by decide⟩
  by_cases h16 : ch = 'P'
  · subst h16; exact Or.inr ⟨by decide, by decide⟩
  by_cases h17 : ch = 'Q'
  · subst h17; exact Or.inr ⟨by decide, by decide⟩
  by_cases h18 : ch = 'R'
  · subst h18; exact Or.inr ⟨by decide, by decide⟩
  by_cases h19 : ch = 'S'
  · subst h19; exact Or.inr ⟨by decide, by decide⟩
  by_cases h20 : ch = 'T'
  · subst h20; exact Or.inr ⟨by decide, by decide⟩
  by_cases h21 : ch = 'U'
  · subst h21; exact Or.inr ⟨by decide, by decide⟩
  by_cases h22 : ch = 'V'
  · subst h22; exact Or.inr ⟨by decide, by decide⟩
  by_cases h23 : ch = 'W'
  · subst h23; exact Or.inr ⟨by decide, by decide⟩
  by_cases h24 : ch = 'X'
  · subst h24; exact Or.inr ⟨by decide, by decide⟩
  by_cases h25 : ch = 'Y'
  · subst h25; exact Or.inr ⟨by decide, by decide⟩
  by_cases h26 : ch = 'Z'
  · subst h26; exact Or.inr ⟨by decide, by decide⟩
  exact Or.inl (pyToLowerChar_eq_self ch h1 h2 h3 h4 h5 h6 h7 h8 h9 h10
    h11 h12 h13 h14 h15 h16 h17 h18 h19 h20 h21 h22 h23 h24 h25 h26)

/-- Lowercasing preserves being (or not being) a dot. -/
theorem dot_beq_toLower (ch : Char) :
    (('.' : Char) == pyToLowerChar ch) = (('.' : Char) == ch) := by
  rcases pyToLowerChar_cases ch with h | ⟨hu, hl⟩
  · rw [h]
  · have e1 : (('.' : Char) == pyToLowerChar ch) = false := by
      have hall : lowerChars.all (fun x => !(('.' : Char) == x)) = true := by decide
      have := List.all_eq_true.mp hall _ hl
      simpa using this
    have e2 : (('.' : Char) == ch) = false := by
      have hall : upperChars.all (fun x => !(('.' : Char) == x)) = true := by decide
      have := List.all_eq_true.mp hall _ hu
      simpa using this
    rw [e1, e2]

/-- Lowercasing preserves being (or not being) a tilde. -/
theorem tilde_beq_toLower (ch : Char) :
    (('~' : Char) == pyToLowerChar ch) = (('~' : Char) == ch) := by
  rcases pyToLowerChar_cases ch with h | ⟨hu, hl⟩
  · rw [h]
  · have e1 : (('~' : Char) == pyToLowerChar ch) = false := by
      have hall : lowerChars.all (fun x => !(('~' : Char) == x)) = true := by decide
      have := List.all_eq_true.mp hall _ hl
      simpa using this
    have e2 : (('~' : Char) == ch) = false := by
      have hall : upperChars.all (fun x => !(('~' : Char) == x)) = true := by decide
      have := List.all_eq_true.mp hall _ hu
      simpa using this
    rw [e1, e2]

/-- Lowercasing a character is idempotent. -/
theorem pyToLowerChar_idem (ch : Char) :
    pyToLowerChar (pyToLowerChar ch) = pyToLowerChar ch := by
  rcases pyToLowerChar_cases ch with h | ⟨_, hl⟩
  · rw [h]
    exact h
  · have hall : lowerChars.all (fun y => pyToLowerChar y == y) = true := by decide
    have := List.all_eq_true.mp hall _ hl
    simpa using this

/-- Prefix tests against patterns whose characters are beq-invariant
under a map are unchanged by the map. -/
theorem isPrefixOf_map_fix (f : Char → Char) :
    ∀ (pat l : List Char), (∀ a ∈ pat, ∀ ch, (a == f ch) = (a == ch)) →
      pat.isPrefixOf (l.map f) = pat.isPrefixOf l := by
  intro pat
  induction pat with
  | nil =>
    intro l _
    cases l <;> rfl
  | cons a as ih =>
    intro l hf
    cases l with
    | nil => rfl
    | cons ch t =>
      rw [List.map_cons, List.isPrefixOf, List.isPrefixOf,
        hf a (List.mem_cons_self a as) ch,
        ih t (fun b hb => hf b (List.mem_cons_of_mem a hb))]

/-- Substring tests for such patterns are unchanged by the map. -/
theorem listHasSub_map_fix (f : Char → Char) (pat : List Char)
    (hf : ∀ a ∈ pat, ∀ ch, (a == f ch) = (a == ch)) :
    ∀ l, listHasSub pat (l.map f) = listHasSub pat l := by
  intro l
  induction l with
  | nil => rfl
  | cons c t ih =>
    rw [List.map_cons, listHasSub, listHasSub, ih, ← List.map_cons,
      isPrefixOf_map_fix f pat (c :: t) hf]

/-- Lowercasing a string is idempotent. -/
theorem pyLower_idem (s : String) : pyLower (pyLower s) = pyLower s := by
  rw [pyLower, pyLower]
  show String.mk ((s.toList.map pyToLowerChar).map pyToLowerChar) =
    String.mk (s.toList.map pyToLowerChar)
  rw [List.map_map]
  congr 1
  exact List.map_congr_left (fun ch _ => pyToLowerChar_idem ch)

/-- A lowercased command contains a dot-dot exactly when the original
does. -/
theorem containsSub_pyLower_dotdot (c : String) :
    containsSub (pyLower c) ".." = containsSub c ".." := by
  rw [containsSub, containsSub]
  have hf : ∀ a ∈ (String.toList ".."), ∀ ch,
      (a == pyToLowerChar ch) = (a == ch) := by
    intro a ha ch
    have ha' : a = '.' := by
      rcases List.mem_cons.mp ha with h | h
      · exact h
      · exact List.mem_singleton.mp h
    subst ha'
    exact dot_beq_toLower ch
  exact listHasSub_map_fix pyToLowerChar (String.toList "..") hf c.toList

/-- A lowercased command contains a tilde exactly when the original
does. -/
theorem containsSub_pyLower_tilde (c : String) :
    containsSub (pyLower c) "~" = containsSub c "~" := by
  rw [containsSub, containsSub]
  have hf : ∀ a ∈ (String.toList "~"), ∀ ch,
      (a == pyToLowerChar ch) = (a == ch) := by
    intro a ha ch
    have ha' : a = '~' := List.mem_singleton.mp ha
    subst ha'
    exact tilde_beq_toLower ch
  exact listHasSub_map_fix pyToLowerChar (String.toList "~") hf c.toList

/-- C3 (amended): the classifier lowercases the whole tokenized command,
so the path arguments it validates are the lowercased tokens; consequently
for every command whose lowercased first token is a whitelisted verb, the
verdict on the command equals the verdict on the fully lowercased
command — character case carries no information, not even in the path
arguments. -/
theorem is_safe_command_case_insensitive_for_verbs
    (cwd : String) (self : CommandExecutor) (c v : String)
    (rest : List String) (n : Nat)
    (htok : splitWs (pyLower c) = v :: rest)
    (hverb : lookupVerb v = some n) :
    is_safe_command cwd self c = is_safe_command cwd self (pyLower c) := by
  obtain ⟨pd?⟩ := self
  cases pd? with
  | none => rfl
  | some pd =>
    unfold is_safe_command
    rw [pyLower_idem]
    simp only [htok, containsSub_pyLower_dotdot, containsSub_pyLower_tilde,
      hverb]


/-- Witness for the amended C3: the rejected counterexample command and
its fully lowercased copy are classified identically. -/
theorem is_safe_command_case_insensitive_for_verbs_witness :
    is_safe_command "/cwd" ⟨some "/Proj"⟩ "del /Proj/file" =
      is_safe_command "/cwd" ⟨some "/Proj"⟩ (pyLower "del /Proj/file") :=
  is_safe_command_case_insensitive_for_verbs "/cwd" ⟨some "/Proj"⟩
    "del /Proj/file" "del" ["/proj/file"] 1 rfl rfl
